import Mathlib

/-!
# procstat -k: the kernel stack report of `usr.bin/procstat/procstat_kstack.c`

A shallow embedding of the trace cleaner (`kstack_nextstate`, `kstack_cleanup`),
of the thread ordering (`kinfo_kstack_compare`, `kinfo_kstack_sort`) and of the
report builder (`procstat_kstack`), followed by the properties proved of them.

Conventions.
* A C string is a `List Char`: the bytes of the buffer.  A scan stops at the
  first NUL, or at the end of the list, which stands for the terminator.
* `enum trace_state` is carried by the integer codes of its enumerators, so
  that the `default:` arm of `kstack_nextstate` (an `errx`) has a meaning: a
  function that may call `errx` returns `none` there.
* `int` values that take part in arithmetic are `Int`s wrapped to 32 bits.
-/

namespace Kstack

/-! ## The trace cleaner -/

/-- The type `enum trace_state`: an enumerator is its integer code. -/
abbrev trace_state := Nat

/-- Enumerator `TS_FRAMENUM`. -/
abbrev TS_FRAMENUM : trace_state := 0
/-- Enumerator `TS_PC`. -/
abbrev TS_PC : trace_state := 1
/-- Enumerator `TS_AT`. -/
abbrev TS_AT : trace_state := 2
/-- Enumerator `TS_FUNC`. -/
abbrev TS_FUNC : trace_state := 3
/-- Enumerator `TS_OFF`. -/
abbrev TS_OFF : trace_state := 4

/-- The function `kstack_nextstate`: the `switch` over the five enumerators;
`none` is the `default:` arm, `errx(-1, "kstack_nextstate")`. -/
def kstack_nextstate (ts : trace_state) : Option trace_state :=
  if ts = TS_FRAMENUM then some TS_PC
  else if ts = TS_PC then some TS_AT
  else if ts = TS_AT then some TS_FUNC
  else if ts = TS_FUNC then some TS_OFF
  else if ts = TS_OFF then some TS_FRAMENUM
  else none

/-- The three `case` labels of the `switch (*cp_old)` in `kstack_cleanup`. -/
def is_delim (c : Char) : Prop := c = ' ' ∨ c = '\n' ∨ c = '+'

instance (c : Char) : Decidable (is_delim c) := by
  unfold is_delim; infer_instance

/-- The `for` loop of `kstack_cleanup`: `cp_old` is what is left of the input,
`ts` the state, `new` the characters written through `cp_new` so far.  The
result is the text in `new` when the loop ends (at the NUL stored last). -/
def kstack_cleanup_loop (kflag : Int) :
    List Char → trace_state → List Char → Option (List Char)
  | [], _, new => some new
  | c :: cp_old, ts, new =>
    if c = '\x00' then some new
    else if is_delim c then
      match kstack_nextstate ts with
      | none => none
      | some ts1 =>
        let new1 := if ts = TS_OFF then new ++ [' '] else new
        let new2 := if kflag > 1 ∧ ts = TS_FUNC then new1 ++ ['+'] else new1
        kstack_cleanup_loop kflag cp_old ts1 new2
    else
      kstack_cleanup_loop kflag cp_old ts
        (if ts = TS_FUNC ∨ (kflag > 1 ∧ ts = TS_OFF) then new ++ [c] else new)

/-- The function `kstack_cleanup(old, new, kflag)`: the string left in `new`,
or `none` when `kstack_nextstate` ends the process. -/
def kstack_cleanup (old : List Char) (kflag : Int) : Option (List Char) :=
  kstack_cleanup_loop kflag old TS_FRAMENUM []

/-- Length of a C string: the bytes before the first NUL. -/
def strlen (s : List Char) : Nat := (s.takeWhile (fun c => c ≠ '\x00')).length

/-! ## Ordering the threads -/

/-- The fields of `struct kinfo_kstack` the program reads: `kkst_tid` (an
`lwpid_t`, a signed 32-bit integer), `kkst_state`, `kkst_trace`. -/
structure kinfo_kstack where
  kkst_tid : Int
  kkst_state : Int
  kkst_trace : List Char
deriving DecidableEq

/-- The values of a signed 32-bit `int`. -/
def is_int32 (x : Int) : Prop := -2147483648 ≤ x ∧ x ≤ 2147483647

instance (x : Int) : Decidable (is_int32 x) := by
  unfold is_int32; infer_instance

/-- The result of an `int` operation whose exact value is `x`: `x` taken
modulo 2^32 into the signed 32-bit range. -/
def wrap_int32 (x : Int) : Int := (x + 2147483648) % 4294967296 - 2147483648

/-- The function `kinfo_kstack_compare`: the `int` difference of the two
thread ids. -/
def kinfo_kstack_compare (a b : kinfo_kstack) : Int :=
  wrap_int32 (a.kkst_tid - b.kkst_tid)

/-- Modelled from the spec: the library sort `qsort(3)` called by
`kinfo_kstack_sort` is libc code, absent from the source file; the spec calls
it "a direct library sort" by "a simple comparison".  Here: an insertion
sort; `x` goes in front of the first element it does not compare greater
than. -/
def qsort_insert {α : Type} (compar : α → α → Int) (x : α) : List α → List α
  | [] => [x]
  | y :: ys => if compar x y ≤ 0 then x :: y :: ys else y :: qsort_insert compar x ys

/-- Modelled from the spec: `qsort(3)`, see `qsort_insert`. -/
def qsort {α : Type} (compar : α → α → Int) : List α → List α
  | [] => []
  | x :: xs => qsort_insert compar x (qsort compar xs)

/-- The function `kinfo_kstack_sort(kkstp, count)`; the array of `count`
records is the list. -/
def kinfo_kstack_sort (kkstp : List kinfo_kstack) : List kinfo_kstack :=
  qsort kinfo_kstack_compare kkstp

/-! ## The report -/

/-- The constants `procstat_kstack` takes from system headers that are not
part of the source file (`<errno.h>`, `<sys/user.h>`).  The three error
numbers are distinct, and so are the three states (they label the cases of
one `switch`). -/
structure Consts where
  ESRCH : Int
  EPERM : Int
  ENOENT : Int
  KKST_STATE_STACKOK : Int
  KKST_STATE_SWAPPED : Int
  KKST_STATE_RUNNING : Int
  KKST_MAXLEN : Nat
  errno_distinct : ESRCH ≠ EPERM ∧ ESRCH ≠ ENOENT ∧ EPERM ≠ ENOENT
  state_distinct : KKST_STATE_RUNNING ≠ KKST_STATE_SWAPPED ∧
    KKST_STATE_RUNNING ≠ KKST_STATE_STACKOK ∧ KKST_STATE_SWAPPED ≠ KKST_STATE_STACKOK

/-- The values FreeBSD's headers give the constants. -/
def freebsd : Consts where
  ESRCH := 3
  EPERM := 1
  ENOENT := 2
  KKST_STATE_STACKOK := 0
  KKST_STATE_SWAPPED := 1
  KKST_STATE_RUNNING := 2
  KKST_MAXLEN := 1024
  errno_distinct := by decide
  state_distinct := by decide

/-- What the kernel and the allocator answer during one call of
`procstat_kstack`: the return value and `errno` of the size query, whether
`malloc` returns a buffer, the return value and `errno` of the fetch query,
and the records the fetch leaves in the buffer (`len / sizeof(*kkstp)` of
them).  An answer is read only if the call it belongs to is made. -/
structure Kernel where
  size_error : Int
  size_errno : Int
  malloc_ok : Bool
  fetch_error : Int
  fetch_errno : Int
  kkstp : List kinfo_kstack

/-- A diagnostic of `<err.h>` written to standard error: `warn(fmt, arg)` and
`err(eval, fmt)` carry the current `errno`, `errx(eval, fmt)` does not. -/
inductive Diag where
  | warn (fmt : String) (arg : Int) (errno : Int)
  | err (eval : Int) (fmt : String)
  | errx (eval : Int) (fmt : String)
deriving DecidableEq

/-- What one call of `procstat_kstack` does: the characters written to standard
output, the diagnostics written to standard error, and `exit = some eval` when
`err` or `errx` ended the process (`none`: the call returned). -/
structure Outcome where
  stdout : List Char
  stderr : List Diag
  exit : Option Int
deriving DecidableEq

/-- What `%s` prints of a C string: the bytes before the first NUL. -/
def cstr (s : List Char) : List Char := s.takeWhile (fun c => c ≠ '\x00')

/-- Conversion `%d`. -/
def fmt_d (n : Int) : List Char :=
  if n < 0 then '-' :: Nat.toDigits 10 n.natAbs else Nat.toDigits 10 n.natAbs

/-- Minimum field width `w`, right-justified (`%5s`, `%6d`). -/
def pad_left (w : Nat) (s : List Char) : List Char :=
  List.replicate (w - s.length) ' ' ++ s

/-- Minimum field width `w`, left-justified (`%-20s`, `%-45s`). -/
def pad_right (w : Nat) (s : List Char) : List Char :=
  s ++ List.replicate (w - s.length) ' '

/-- The header: `printf("%5s %6s %-20s %-45s\n", "PID", "TID", "COMM", "KSTACK")`. -/
def header : List Char :=
  pad_left 5 "PID".toList ++ [' '] ++ pad_left 6 "TID".toList ++ [' '] ++
    pad_right 20 "COMM".toList ++ [' '] ++ pad_right 45 "KSTACK".toList ++ ['\n']

/-- The three `printf`s that open a row: `"%5d "`, `"%6d "`, `"%-20s "`. -/
def row_head (pid : Int) (ki_comm : List Char) (r : kinfo_kstack) : List Char :=
  pad_left 5 (fmt_d pid) ++ [' '] ++ pad_left 6 (fmt_d r.kkst_tid) ++ [' '] ++
    pad_right 20 (cstr ki_comm) ++ [' ']

/-- The call `printf("%-45s\n", s)` that closes a row. -/
def row_tail (s : List Char) : List Char := pad_right 45 (cstr s) ++ ['\n']

/-- One turn of the `for` loop of `procstat_kstack`, for the record `r`: the
characters it prints, and `false` when `kstack_cleanup` ended the process
(after the first three `printf`s). -/
def procstat_kstack_row (K : Consts) (pid : Int) (ki_comm : List Char) (kflag : Int)
    (r : kinfo_kstack) : List Char × Bool :=
  if r.kkst_state = K.KKST_STATE_RUNNING then
    (row_head pid ki_comm r ++ row_tail "<running>".toList, true)
  else if r.kkst_state = K.KKST_STATE_SWAPPED then
    (row_head pid ki_comm r ++ row_tail "<swapped>".toList, true)
  else if r.kkst_state = K.KKST_STATE_STACKOK then
    match kstack_cleanup r.kkst_trace kflag with
    | none => (row_head pid ki_comm r, false)
    | some trace => (row_head pid ki_comm r ++ row_tail trace, true)
  else
    (row_head pid ki_comm r ++ row_tail "<unknown>".toList, true)

/-- The `for` loop of `procstat_kstack` over the sorted records. -/
def procstat_kstack_rows (K : Consts) (pid : Int) (ki_comm : List Char) (kflag : Int) :
    List kinfo_kstack → List Char × Bool
  | [] => ([], true)
  | r :: rest =>
    match procstat_kstack_row K pid ki_comm kflag r with
    | (text, false) => (text, false)
    | (text, true) =>
      ((text ++ (procstat_kstack_rows K pid ki_comm kflag rest).1),
        (procstat_kstack_rows K pid ki_comm kflag rest).2)

/-- The function `procstat_kstack(pid, kipp, kflag)`, with the global `hflag`,
the command name `kipp->ki_comm` and the answers `os` of the system. -/
def procstat_kstack (K : Consts) (hflag : Int) (os : Kernel) (pid : Int)
    (ki_comm : List Char) (kflag : Int) : Outcome :=
  let out := if hflag = 0 then header else []
  if os.size_error < 0 ∧ os.size_errno ≠ K.ESRCH ∧ os.size_errno ≠ K.EPERM ∧
      os.size_errno ≠ K.ENOENT then
    ⟨out, [Diag.warn "sysctl: kern.proc.kstack: %d" pid os.size_errno], none⟩
  else if os.size_error < 0 ∧ os.size_errno = K.ENOENT then
    ⟨out, [Diag.errx (-1) "kern.proc.kstack sysctl unavailable; options DDB is required."],
      some (-1)⟩
  else if os.size_error < 0 then
    ⟨out, [], none⟩
  else if os.malloc_ok = false then
    ⟨out, [Diag.err (-1) "malloc"], some (-1)⟩
  else if os.fetch_error < 0 then
    ⟨out, [Diag.warn "sysctl: kern.proc.pid: %d" pid os.fetch_errno], none⟩
  else
    match procstat_kstack_rows K pid ki_comm kflag (kinfo_kstack_sort os.kkstp) with
    | (rows, true) => ⟨out ++ rows, [], none⟩
    | (rows, false) => ⟨out ++ rows, [Diag.errx (-1) "kstack_nextstate"], some (-1)⟩

/-! ## Well-formed traces -/

/-- One frame of a raw trace: its five tokens. -/
structure Frame where
  num : List Char
  pc : List Char
  at_ : List Char
  func : List Char
  off : List Char

/-- A token: no space, newline or plus sign, and, being part of a C string, no
NUL. -/
def is_token (w : List Char) : Prop := ∀ c ∈ w, ¬ is_delim c ∧ c ≠ '\x00'

/-- A frame all of whose tokens are tokens. -/
def Frame.wf (f : Frame) : Prop :=
  is_token f.num ∧ is_token f.pc ∧ is_token f.at_ ∧ is_token f.func ∧ is_token f.off

/-- The text of a frame: `num ' ' pc ' ' at ' ' func '+' off '\n'`. -/
def Frame.text (f : Frame) : List Char :=
  f.num ++ [' '] ++ f.pc ++ [' '] ++ f.at_ ++ [' '] ++ f.func ++ ['+'] ++ f.off ++ ['\n']

/-- The raw trace of a list of frames: their texts, one after the other. -/
def raw_trace : List Frame → List Char
  | [] => []
  | f :: fs => f.text ++ raw_trace fs

/-- The names-only rendering: every function name followed by a space. -/
def names_only : List Frame → List Char
  | [] => []
  | f :: fs => f.func ++ [' '] ++ names_only fs

/-- The detailed rendering: every `func+off` followed by a space. -/
def names_offsets : List Frame → List Char
  | [] => []
  | f :: fs => f.func ++ ['+'] ++ f.off ++ [' '] ++ names_offsets fs

/-- What standard output holds when no thread row was printed: the header,
or nothing when `hflag` is set. -/
def no_row_output (hflag : Int) : List Char := if hflag = 0 then header else []

/-- A swapped-out thread, 100001, whose `kkst_trace` holds the trace of scenario
A all the same (1 is FreeBSD's `KKST_STATE_SWAPPED`). -/
def swapped_thread : kinfo_kstack := ⟨100001, 1, "0 0xffff At somefunc+0x10\n".toList⟩

/-- A kernel whose size query fails with `errno`. -/
def size_fails (errno : Int) : Kernel := ⟨-1, errno, true, 0, 0, []⟩

/-- A kernel whose size query succeeds and whose fetch query fails with `errno`. -/
def fetch_fails (errno : Int) : Kernel := ⟨0, 0, true, -1, errno, []⟩

/-- The frame of the spec's scenario A, `"0 0xffff At somefunc+0x10\n"`. -/
def scenario_frame : Frame :=
  ⟨"0".toList, "0xffff".toList, "At".toList, "somefunc".toList, "0x10".toList⟩

/-! ## The state of the cleaner, and its two modes side by side -/

/-- The number of delimiter characters (space, newline, plus sign) of a text. -/
def delim_count (s : List Char) : Nat := s.countP (fun c => decide (is_delim c))

/-- The `for` loop of `kstack_cleanup` once more, returning the state `ts` the
loop ends in next to the text written through `cp_new`. -/
def kstack_cleanup_scan (kflag : Int) :
    List Char → trace_state → List Char → Option (trace_state × List Char)
  | [], ts, new => some (ts, new)
  | c :: cp_old, ts, new =>
    if c = '\x00' then some (ts, new)
    else if is_delim c then
      match kstack_nextstate ts with
      | none => none
      | some ts1 =>
        let new1 := if ts = TS_OFF then new ++ [' '] else new
        let new2 := if kflag > 1 ∧ ts = TS_FUNC then new1 ++ ['+'] else new1
        kstack_cleanup_scan kflag cp_old ts1 new2
    else
      kstack_cleanup_scan kflag cp_old ts
        (if ts = TS_FUNC ∨ (kflag > 1 ∧ ts = TS_OFF) then new ++ [c] else new)

/-- The function `kstack_nextstate` applied `n` times. -/
def kstack_nextstate_iter : Nat → trace_state → Option trace_state
  | 0, ts => some ts
  | n + 1, ts => (kstack_nextstate ts).bind (kstack_nextstate_iter n)

/-- The `for` loop of `kstack_cleanup` with `kflag > 1`, every character written
paired with a mark: `true` for the two writes only `kflag > 1` performs (the
plus sign written when `TS_FUNC` is left, a character copied in state
`TS_OFF`), `false` for the two writes every `kflag` performs (the space written
when `TS_OFF` is left, a character copied in state `TS_FUNC`). -/
def kstack_cleanup_marked_loop :
    List Char → trace_state → List (Char × Bool) → Option (List (Char × Bool))
  | [], _, new => some new
  | c :: cp_old, ts, new =>
    if c = '\x00' then some new
    else if is_delim c then
      match kstack_nextstate ts with
      | none => none
      | some ts1 =>
        let new1 := if ts = TS_OFF then new ++ [(' ', false)] else new
        let new2 := if ts = TS_FUNC then new1 ++ [('+', true)] else new1
        kstack_cleanup_marked_loop cp_old ts1 new2
    else
      kstack_cleanup_marked_loop cp_old ts
        (if ts = TS_FUNC then new ++ [(c, false)]
          else if ts = TS_OFF then new ++ [(c, true)] else new)

/-- The detailed cleaning of `old` with its marks. -/
def kstack_cleanup_marked (old : List Char) : Option (List (Char × Bool)) :=
  kstack_cleanup_marked_loop old TS_FRAMENUM []

/-- The characters of a marked text. -/
def marked_all (m : List (Char × Bool)) : List Char := m.map Prod.fst

/-- The characters of a marked text whose mark is `false`. -/
def marked_common (m : List (Char × Bool)) : List Char :=
  (m.filter (fun x => !x.2)).map Prod.fst

/-! ## The row in words -/

/-- The trace field of a record: the placeholder of its state, or its cleaned
trace (empty if the cleaner did not return). -/
def trace_field (K : Consts) (kflag : Int) (r : kinfo_kstack) : List Char :=
  if r.kkst_state = K.KKST_STATE_RUNNING then "<running>".toList
  else if r.kkst_state = K.KKST_STATE_SWAPPED then "<swapped>".toList
  else if r.kkst_state = K.KKST_STATE_STACKOK then
    (kstack_cleanup r.kkst_trace kflag).getD []
  else "<unknown>".toList

/-- The row of a record, in words: pid right-justified to width 5, a space, the
thread id right-justified to width 6, a space, the command name left-justified
to width 20, a space, the trace field left-justified to width 45, a newline. -/
def row_text (K : Consts) (pid : Int) (ki_comm : List Char) (kflag : Int)
    (r : kinfo_kstack) : List Char :=
  pad_left 5 (fmt_d pid) ++ [' '] ++ pad_left 6 (fmt_d r.kkst_tid) ++ [' '] ++
    pad_right 20 (cstr ki_comm) ++ [' '] ++ pad_right 45 (trace_field K kflag r) ++ ['\n']

/-- The rows of a list of records, one after the other. -/
def rows_text (K : Consts) (pid : Int) (ki_comm : List Char) (kflag : Int) :
    List kinfo_kstack → List Char
  | [] => []
  | r :: rest => row_text K pid ki_comm kflag r ++ rows_text K pid ki_comm kflag rest

/-- A kernel whose two queries succeed and return `kkstp`. -/
def fetch_ok (kkstp : List kinfo_kstack) : Kernel := ⟨0, 0, true, 0, 0, kkstp⟩

/-! ## Where the characters of the output come from -/

/-- What the character `c` of the input gives the output, when the text `before`
precedes it in the input.  The slot `c` stands in is the number of delimiters
before it modulo 5.  A delimiter that closes the offset slot (a frame boundary)
gives a space; with `kflag > 1` the delimiter that closes the function-name
slot gives a plus sign; a character that is no delimiter gives itself in the
function-name slot, and with `kflag > 1` in the offset slot; every other
character gives nothing. -/
def emitted_at (kflag : Int) (before : List Char) (c : Char) : List Char :=
  if is_delim c then
    if delim_count before % 5 = TS_OFF then [' ']
    else if kflag > 1 ∧ delim_count before % 5 = TS_FUNC then ['+']
    else []
  else if delim_count before % 5 = TS_FUNC ∨ (kflag > 1 ∧ delim_count before % 5 = TS_OFF)
    then [c]
  else []

/-- What the characters of `rest` give the output, one after the other, when
the text `before` precedes them in the input. -/
def cleaned_after (kflag : Int) : List Char → List Char → List Char
  | _, [] => []
  | before, c :: rest => emitted_at kflag before c ++ cleaned_after kflag (before ++ [c]) rest

/-! ## Lemmas on the cleaner's loop -/

theorem is_delim_ne_nul {c : Char} (h : is_delim c) : c ≠ '\x00' := by
  rcases h with h | h | h <;> subst h <;> decide

theorem loop_nil (kflag : Int) (ts : trace_state) (new : List Char) :
    kstack_cleanup_loop kflag [] ts new = some new := rfl

theorem loop_nul (kflag : Int) (rest : List Char) (ts : trace_state) (new : List Char) :
    kstack_cleanup_loop kflag ('\x00' :: rest) ts new = some new := by
  simp [kstack_cleanup_loop]

/-- A character that is neither NUL nor a delimiter is copied or skipped; the
state stays. -/
theorem loop_plain (kflag : Int) {c : Char} (hd : ¬ is_delim c) (h0 : c ≠ '\x00')
    (rest : List Char) (ts : trace_state) (new : List Char) :
    kstack_cleanup_loop kflag (c :: rest) ts new =
      kstack_cleanup_loop kflag rest ts
        (if ts = TS_FUNC ∨ (kflag > 1 ∧ ts = TS_OFF) then new ++ [c] else new) := by
  simp [kstack_cleanup_loop, hd, h0]

/-- A delimiter read in one of the five states. -/
theorem loop_delim (kflag : Int) {c : Char} (hd : is_delim c) (ts ts1 : trace_state)
    (hn : kstack_nextstate ts = some ts1) (rest new : List Char) :
    kstack_cleanup_loop kflag (c :: rest) ts new =
      kstack_cleanup_loop kflag rest ts1
        (if kflag > 1 ∧ ts = TS_FUNC then (if ts = TS_OFF then new ++ [' '] else new) ++ ['+']
          else (if ts = TS_OFF then new ++ [' '] else new)) := by
  simp [kstack_cleanup_loop, hd, is_delim_ne_nul hd, hn]

/-- A whole token is copied or skipped. -/
theorem loop_token (kflag : Int) (w : List Char) (hw : is_token w) (rest : List Char)
    (ts : trace_state) (new : List Char) :
    kstack_cleanup_loop kflag (w ++ rest) ts new =
      kstack_cleanup_loop kflag rest ts
        (if ts = TS_FUNC ∨ (kflag > 1 ∧ ts = TS_OFF) then new ++ w else new) := by
  induction w generalizing new with
  | nil => simp
  | cons c w ih =>
    have hc := hw c (List.mem_cons_self c w)
    have hw1 : is_token w := fun d hd => hw d (List.mem_cons_of_mem c hd)
    rw [List.cons_append, loop_plain kflag hc.1 hc.2, ih hw1]
    by_cases h : ts = TS_FUNC ∨ (kflag > 1 ∧ ts = TS_OFF) <;> simp [h]

theorem is_delim_space : is_delim ' ' := Or.inl rfl
theorem is_delim_newline : is_delim '\n' := Or.inr (Or.inl rfl)
theorem is_delim_plus : is_delim '+' := Or.inr (Or.inr rfl)

/-- One well-formed frame, names only: the function name and a space are
written, and the state is back to `TS_FRAMENUM`. -/
theorem loop_frame_names (kflag : Int) (hk : ¬ kflag > 1) (f : Frame) (hf : f.wf)
    (rest new : List Char) :
    kstack_cleanup_loop kflag (f.text ++ rest) TS_FRAMENUM new =
      kstack_cleanup_loop kflag rest TS_FRAMENUM (new ++ (f.func ++ [' '])) := by
  obtain ⟨h1, h2, h3, h4, h5⟩ := hf
  simp only [Frame.text, List.append_assoc, List.singleton_append, List.cons_append,
    List.nil_append]
  rw [loop_token kflag _ h1, loop_delim kflag is_delim_space TS_FRAMENUM TS_PC rfl,
    loop_token kflag _ h2, loop_delim kflag is_delim_space TS_PC TS_AT rfl,
    loop_token kflag _ h3, loop_delim kflag is_delim_space TS_AT TS_FUNC rfl,
    loop_token kflag _ h4, loop_delim kflag is_delim_plus TS_FUNC TS_OFF rfl,
    loop_token kflag _ h5, loop_delim kflag is_delim_newline TS_OFF TS_FRAMENUM rfl]
  simp [hk]

/-- One well-formed frame, detailed: `func+off` and a space are written. -/
theorem loop_frame_offsets (kflag : Int) (hk : kflag > 1) (f : Frame) (hf : f.wf)
    (rest new : List Char) :
    kstack_cleanup_loop kflag (f.text ++ rest) TS_FRAMENUM new =
      kstack_cleanup_loop kflag rest TS_FRAMENUM
        (new ++ (f.func ++ ['+'] ++ f.off ++ [' '])) := by
  obtain ⟨h1, h2, h3, h4, h5⟩ := hf
  simp only [Frame.text, List.append_assoc, List.singleton_append, List.cons_append,
    List.nil_append]
  rw [loop_token kflag _ h1, loop_delim kflag is_delim_space TS_FRAMENUM TS_PC rfl,
    loop_token kflag _ h2, loop_delim kflag is_delim_space TS_PC TS_AT rfl,
    loop_token kflag _ h3, loop_delim kflag is_delim_space TS_AT TS_FUNC rfl,
    loop_token kflag _ h4, loop_delim kflag is_delim_plus TS_FUNC TS_OFF rfl,
    loop_token kflag _ h5, loop_delim kflag is_delim_newline TS_OFF TS_FRAMENUM rfl]
  simp [hk]

theorem loop_trace_names (kflag : Int) (hk : ¬ kflag > 1) (fs : List Frame)
    (hfs : ∀ f ∈ fs, f.wf) (new : List Char) :
    kstack_cleanup_loop kflag (raw_trace fs) TS_FRAMENUM new = some (new ++ names_only fs) := by
  induction fs generalizing new with
  | nil => simp [raw_trace, names_only, loop_nil]
  | cons f fs ih =>
    have hf := hfs f (List.mem_cons_self f fs)
    have hr : ∀ g ∈ fs, g.wf := fun g hg => hfs g (List.mem_cons_of_mem f hg)
    rw [raw_trace, loop_frame_names kflag hk f hf, ih hr]
    simp [names_only]

theorem loop_trace_offsets (kflag : Int) (hk : kflag > 1) (fs : List Frame)
    (hfs : ∀ f ∈ fs, f.wf) (new : List Char) :
    kstack_cleanup_loop kflag (raw_trace fs) TS_FRAMENUM new =
      some (new ++ names_offsets fs) := by
  induction fs generalizing new with
  | nil => simp [raw_trace, names_offsets, loop_nil]
  | cons f fs ih =>
    have hf := hfs f (List.mem_cons_self f fs)
    have hr : ∀ g ∈ fs, g.wf := fun g hg => hfs g (List.mem_cons_of_mem f hg)
    rw [raw_trace, loop_frame_offsets kflag hk f hf, ih hr]
    simp [names_offsets]

/-- On the five enumerators `kstack_nextstate` returns an enumerator: the
`default:` arm is not taken. -/
theorem kstack_nextstate_total (ts : trace_state) (h : ts ≤ TS_OFF) :
    ∃ ts1, kstack_nextstate ts = some ts1 ∧ ts1 ≤ TS_OFF := by
  have h4 : ts ≤ 4 := h
  interval_cases ts <;> simp [kstack_nextstate] <;> decide

theorem strlen_nil : strlen [] = 0 := rfl

theorem strlen_nul (rest : List Char) : strlen ('\x00' :: rest) = 0 := by
  simp [strlen]

theorem strlen_cons {c : Char} (h0 : c ≠ '\x00') (rest : List Char) :
    strlen (c :: rest) = strlen rest + 1 := by
  simp [strlen, List.takeWhile_cons, h0]

/-- From any enumerator the loop ends normally, and writes at most one character
for each character it reads. -/
theorem loop_length (kflag : Int) (s : List Char) (ts : trace_state) (h : ts ≤ TS_OFF)
    (new : List Char) :
    ∃ out, kstack_cleanup_loop kflag s ts new = some out ∧
      out.length ≤ new.length + strlen s := by
  induction s generalizing ts new with
  | nil => exact ⟨new, rfl, by simp [strlen_nil]⟩
  | cons c s ih =>
    by_cases h0 : c = '\x00'
    · subst h0
      exact ⟨new, loop_nul kflag s ts new, by simp [strlen_nul]⟩
    · by_cases hd : is_delim c
      · obtain ⟨ts1, hn, h1⟩ := kstack_nextstate_total ts h
        rw [loop_delim kflag hd ts ts1 hn, strlen_cons h0]
        obtain ⟨out, ho, hl⟩ := ih ts1 h1
          (if kflag > 1 ∧ ts = TS_FUNC then
            (if ts = TS_OFF then new ++ [' '] else new) ++ ['+']
          else (if ts = TS_OFF then new ++ [' '] else new))
        refine ⟨out, ho, le_trans hl ?_⟩
        by_cases hf : ts = TS_FUNC
        · subst hf; by_cases hk : kflag > 1 <;> simp [hk]; omega
        · by_cases ho : ts = TS_OFF <;> simp [hf, ho]; omega
      · rw [loop_plain kflag hd h0, strlen_cons h0]
        obtain ⟨out, ho, hl⟩ := ih ts h
          (if ts = TS_FUNC ∨ (kflag > 1 ∧ ts = TS_OFF) then new ++ [c] else new)
        refine ⟨out, ho, le_trans hl ?_⟩
        by_cases hc : ts = TS_FUNC ∨ (kflag > 1 ∧ ts = TS_OFF) <;> simp [hc]; omega

/-- The cleaner always returns: `kstack_nextstate` never reaches its `errx`. -/
theorem kstack_cleanup_returns (old : List Char) (kflag : Int) :
    ∃ out, kstack_cleanup old kflag = some out := by
  obtain ⟨out, ho, _⟩ := loop_length kflag old TS_FRAMENUM (by decide) []
  exact ⟨out, ho⟩

/-- The loop reads `kflag` only through the test `kflag > 1`. -/
theorem loop_kflag (k1 k2 : Int) (hk : k1 > 1 ↔ k2 > 1) (s : List Char) (ts : trace_state)
    (new : List Char) :
    kstack_cleanup_loop k1 s ts new = kstack_cleanup_loop k2 s ts new := by
  induction s generalizing ts new with
  | nil => rfl
  | cons c s ih =>
    unfold kstack_cleanup_loop
    simp only [hk, ih]

theorem no_nul_snoc (l : List Char) (c : Char) (hl : ∀ d ∈ l, d ≠ '\x00')
    (hc : c ≠ '\x00') : ∀ d ∈ l ++ [c], d ≠ '\x00' := by
  intro d hd
  rcases List.mem_append.mp hd with h | h
  · exact hl d h
  · rw [List.mem_singleton] at h
    rw [h]; exact hc

/-- The cleaner writes no NUL. -/
theorem loop_no_nul (kflag : Int) (s : List Char) (ts : trace_state) (new out : List Char)
    (hnew : ∀ c ∈ new, c ≠ '\x00') (h : kstack_cleanup_loop kflag s ts new = some out) :
    ∀ c ∈ out, c ≠ '\x00' := by
  induction s generalizing ts new with
  | nil =>
    rw [loop_nil] at h
    exact Option.some.inj h ▸ hnew
  | cons c s ih =>
    by_cases h0 : c = '\x00'
    · subst h0
      rw [loop_nul] at h
      exact Option.some.inj h ▸ hnew
    · by_cases hd : is_delim c
      · cases hn : kstack_nextstate ts with
        | none => simp [kstack_cleanup_loop, hd, h0, hn] at h
        | some ts1 =>
          rw [loop_delim kflag hd ts ts1 hn] at h
          have hsp := no_nul_snoc new ' ' hnew (by decide)
          refine ih ts1 _ ?_ h
          split_ifs
          · exact no_nul_snoc _ '+' hsp (by decide)
          · exact no_nul_snoc _ '+' hnew (by decide)
          · exact hsp
          · exact hnew
      · rw [loop_plain kflag hd h0] at h
        refine ih ts _ ?_ h
        split_ifs
        · exact no_nul_snoc new c hnew h0
        · exact hnew

theorem cstr_of_no_nul (s : List Char) (h : ∀ c ∈ s, c ≠ '\x00') : cstr s = s := by
  unfold cstr
  rw [List.takeWhile_eq_self_iff]
  intro c hc
  simpa using h c hc

/-- The string `kstack_cleanup` leaves in `trace` is printed whole by `%s`. -/
theorem cstr_kstack_cleanup (old : List Char) (kflag : Int) (trace : List Char)
    (h : kstack_cleanup old kflag = some trace) : cstr trace = trace :=
  cstr_of_no_nul trace (loop_no_nul kflag old TS_FRAMENUM [] trace (by simp) h)

/-! ## Lemmas on the sort -/

theorem qsort_insert_perm {α : Type} (compar : α → α → Int) (x : α) (l : List α) :
    (qsort_insert compar x l).Perm (x :: l) := by
  induction l with
  | nil => exact List.Perm.refl _
  | cons y ys ih =>
    unfold qsort_insert
    split_ifs
    · exact List.Perm.refl _
    · exact (List.Perm.cons y ih).trans (List.Perm.swap x y ys)

/-- The sort rearranges the records: its result is a permutation of its input,
whatever the comparison function. -/
theorem qsort_perm {α : Type} (compar : α → α → Int) (l : List α) :
    (qsort compar l).Perm l := by
  induction l with
  | nil => exact List.Perm.refl _
  | cons x xs ih =>
    unfold qsort
    exact (qsort_insert_perm compar x _).trans (List.Perm.cons x ih)

theorem kinfo_kstack_sort_perm (l : List kinfo_kstack) : (kinfo_kstack_sort l).Perm l :=
  qsort_perm kinfo_kstack_compare l

/-- A difference that fits in 32 bits is not changed by the wrap. -/
theorem wrap_int32_of_is_int32 (x : Int) (h : is_int32 x) : wrap_int32 x = x := by
  obtain ⟨h1, h2⟩ := h
  unfold wrap_int32
  omega

/-- On non-negative thread ids the comparison is the exact difference. -/
theorem kinfo_kstack_compare_exact (a b : kinfo_kstack)
    (ha : 0 ≤ a.kkst_tid ∧ a.kkst_tid ≤ 2147483647)
    (hb : 0 ≤ b.kkst_tid ∧ b.kkst_tid ≤ 2147483647) :
    kinfo_kstack_compare a b = a.kkst_tid - b.kkst_tid := by
  unfold kinfo_kstack_compare
  apply wrap_int32_of_is_int32
  unfold is_int32
  omega

theorem qsort_insert_sorted (x : kinfo_kstack) (l : List kinfo_kstack)
    (hx : 0 ≤ x.kkst_tid ∧ x.kkst_tid ≤ 2147483647)
    (hl : ∀ r ∈ l, 0 ≤ r.kkst_tid ∧ r.kkst_tid ≤ 2147483647)
    (hs : l.Pairwise (fun a b => a.kkst_tid ≤ b.kkst_tid)) :
    (qsort_insert kinfo_kstack_compare x l).Pairwise (fun a b => a.kkst_tid ≤ b.kkst_tid) := by
  induction l with
  | nil => simp [qsort_insert]
  | cons y ys ih =>
    have hy := hl y (List.mem_cons_self y ys)
    have hys : ∀ r ∈ ys, 0 ≤ r.kkst_tid ∧ r.kkst_tid ≤ 2147483647 :=
      fun r hr => hl r (List.mem_cons_of_mem y hr)
    obtain ⟨hy1, hs1⟩ := List.pairwise_cons.mp hs
    unfold qsort_insert
    rw [kinfo_kstack_compare_exact x y hx hy]
    split_ifs with hc
    · refine List.pairwise_cons.mpr ⟨?_, hs⟩
      intro r hr
      rcases List.mem_cons.mp hr with h | h
      · rw [h]; omega
      · have := hy1 r h
        omega
    · refine List.pairwise_cons.mpr ⟨?_, ih hys hs1⟩
      intro r hr
      rcases List.mem_cons.mp ((qsort_insert_perm kinfo_kstack_compare x ys).subset hr) with h | h
      · rw [h]; omega
      · exact hy1 r h

/-- On non-negative thread ids the sort leaves the thread ids in non-decreasing
order. -/
theorem kinfo_kstack_sort_sorted (l : List kinfo_kstack)
    (hl : ∀ r ∈ l, 0 ≤ r.kkst_tid ∧ r.kkst_tid ≤ 2147483647) :
    (kinfo_kstack_sort l).Pairwise (fun a b => a.kkst_tid ≤ b.kkst_tid) := by
  induction l with
  | nil => simp [kinfo_kstack_sort, qsort]
  | cons x xs ih =>
    have hx := hl x (List.mem_cons_self x xs)
    have hxs : ∀ r ∈ xs, 0 ≤ r.kkst_tid ∧ r.kkst_tid ≤ 2147483647 :=
      fun r hr => hl r (List.mem_cons_of_mem x hr)
    unfold kinfo_kstack_sort qsort
    exact qsort_insert_sorted x _ hx
      (fun r hr => hxs r ((kinfo_kstack_sort_perm xs).subset hr)) (ih hxs)

/-- Claim C1: on a well-formed raw trace of `k ≥ 0` frames, `kstack_cleanup` with
`kflag = 0` returns, and writes exactly the function names, in frame order, each
followed by one space: nothing of a frame number, address, `at` marker or
offset is written. -/
theorem kstack_cleanup_names_only (fs : List Frame) (hfs : ∀ f ∈ fs, f.wf) :
    kstack_cleanup (raw_trace fs) 0 = some (names_only fs) := by
  have h := loop_trace_names 0 (by decide) fs hfs []
  simpa [kstack_cleanup] using h

/-- Scenario A of claim C1: `"0 0xffff At somefunc+0x10\n"` is the raw trace of one
well-formed frame and cleans to `"somefunc "`. -/
theorem kstack_cleanup_names_only_witness :
    raw_trace [scenario_frame] = "0 0xffff At somefunc+0x10\n".toList ∧
    (∀ f ∈ [scenario_frame], f.wf) ∧
    kstack_cleanup "0 0xffff At somefunc+0x10\n".toList 0 = some "somefunc ".toList :=
  ⟨by decide, by simp [scenario_frame, Frame.wf, is_token, is_delim],
    kstack_cleanup_names_only [scenario_frame]
      (by simp [scenario_frame, Frame.wf, is_token, is_delim])⟩

/-- Claim C2: on a well-formed raw trace of `k ≥ 0` frames, `kstack_cleanup` with
`kflag = 2` returns, and writes exactly the tokens `func+off`, in frame order,
each followed by one space. -/
theorem kstack_cleanup_names_offsets (fs : List Frame) (hfs : ∀ f ∈ fs, f.wf) :
    kstack_cleanup (raw_trace fs) 2 = some (names_offsets fs) := by
  have h := loop_trace_offsets 2 (by decide) fs hfs []
  simpa [kstack_cleanup] using h

/-- Scenario A of claim C2: `"0 0xffff At somefunc+0x10\n"` cleans to
`"somefunc+0x10 "` in detailed mode. -/
theorem kstack_cleanup_names_offsets_witness :
    raw_trace [scenario_frame] = "0 0xffff At somefunc+0x10\n".toList ∧
    (∀ f ∈ [scenario_frame], f.wf) ∧
    kstack_cleanup "0 0xffff At somefunc+0x10\n".toList 2 = some "somefunc+0x10 ".toList :=
  ⟨by decide, by simp [scenario_frame, Frame.wf, is_token, is_delim],
    kstack_cleanup_names_offsets [scenario_frame]
      (by simp [scenario_frame, Frame.wf, is_token, is_delim])⟩

/-! ## The cleaner on every input -/

/-- Claim C9: for every input string and every `kflag`, `kstack_cleanup` returns
and the string it writes is no longer than the input string; so the output
with its NUL fits in every buffer that holds the input with its NUL, as
`trace[KKST_MAXLEN]` does for `kkst_trace[KKST_MAXLEN]`. -/
theorem kstack_cleanup_fits (old : List Char) (kflag : Int) :
    ∃ out, kstack_cleanup old kflag = some out ∧ out.length ≤ strlen old ∧
      ∀ size : Nat, strlen old + 1 ≤ size → out.length + 1 ≤ size := by
  obtain ⟨out, ho, hl⟩ := loop_length kflag old TS_FRAMENUM (by decide) []
  have hl1 : out.length ≤ strlen old := by simpa using hl
  exact ⟨out, ho, hl1, fun size hs => by omega⟩

/-- An instance of claim C9: a malformed input of 13 characters, in detailed mode,
gives the 4 characters `"d+e "`, which fit with their NUL in a buffer of
`KKST_MAXLEN` = 1024 characters. -/
theorem kstack_cleanup_fits_witness :
    ∃ out, kstack_cleanup "a b c d+e f+g".toList 2 = some out ∧
      out = "d+e ".toList ∧
      out.length ≤ strlen "a b c d+e f+g".toList ∧
      out.length + 1 ≤ freebsd.KKST_MAXLEN := by
  obtain ⟨out, ho, hl, hb⟩ := kstack_cleanup_fits "a b c d+e f+g".toList 2
  refine ⟨out, ho, ?_, hl, hb freebsd.KKST_MAXLEN (by decide)⟩
  have h2 : kstack_cleanup "a b c d+e f+g".toList 2 = some "d+e ".toList := by decide
  rw [h2] at ho
  exact (Option.some.inj ho).symm

/-- Claim C10: the detail flag has two behaviours.  For every input, every
`kflag ≤ 1` gives the result of `kflag = 0`, and every `kflag ≥ 2` the result
of `kflag = 2`. -/
theorem kstack_cleanup_two_modes (old : List Char) (kflag : Int) :
    (kflag ≤ 1 → kstack_cleanup old kflag = kstack_cleanup old 0) ∧
    (kflag ≥ 2 → kstack_cleanup old kflag = kstack_cleanup old 2) := by
  constructor
  · intro h
    exact loop_kflag kflag 0 (by constructor <;> intro h1 <;> omega) old TS_FRAMENUM []
  · intro h
    exact loop_kflag kflag 2 (by constructor <;> intro h1 <;> omega) old TS_FRAMENUM []

/-- Instances of claim C10: plain `-k` (`kflag = 1`) cleans scenario A as
`kflag = 0` does, to names only, and `kflag = 3` as `kflag = 2` does; the two
modes differ. -/
theorem kstack_cleanup_two_modes_witness :
    kstack_cleanup "0 0xffff At somefunc+0x10\n".toList 1 = some "somefunc ".toList ∧
    kstack_cleanup "0 0xffff At somefunc+0x10\n".toList 3 =
      some "somefunc+0x10 ".toList := by
  have h := kstack_cleanup_two_modes "0 0xffff At somefunc+0x10\n".toList 1
  have g := kstack_cleanup_two_modes "0 0xffff At somefunc+0x10\n".toList 3
  refine ⟨(h.1 (by decide)).trans (by decide), (g.2 (by decide)).trans (by decide)⟩

/-! ## Ordering the threads -/

/-- Claim C4: the trace field of a record's row is `<running>` in state RUNNING,
`<swapped>` in state SWAPPED, `<unknown>` in every state other than RUNNING,
SWAPPED and STACKOK, and in state STACKOK the string `kstack_cleanup` returns
for `kkst_trace` (it does return); the field is padded to 45 and followed by
a newline.  Hence a record whose state is not STACKOK prints the same row
whatever its `kkst_trace`. -/
theorem procstat_kstack_row_field (K : Consts) (pid : Int) (ki_comm : List Char)
    (kflag : Int) (r : kinfo_kstack) :
    (r.kkst_state = K.KKST_STATE_RUNNING →
      procstat_kstack_row K pid ki_comm kflag r =
        (row_head pid ki_comm r ++ pad_right 45 "<running>".toList ++ ['\n'], true)) ∧
    (r.kkst_state = K.KKST_STATE_SWAPPED →
      procstat_kstack_row K pid ki_comm kflag r =
        (row_head pid ki_comm r ++ pad_right 45 "<swapped>".toList ++ ['\n'], true)) ∧
    (r.kkst_state ≠ K.KKST_STATE_RUNNING → r.kkst_state ≠ K.KKST_STATE_SWAPPED →
      r.kkst_state ≠ K.KKST_STATE_STACKOK →
      procstat_kstack_row K pid ki_comm kflag r =
        (row_head pid ki_comm r ++ pad_right 45 "<unknown>".toList ++ ['\n'], true)) ∧
    (r.kkst_state = K.KKST_STATE_STACKOK →
      ∃ trace, kstack_cleanup r.kkst_trace kflag = some trace ∧
        procstat_kstack_row K pid ki_comm kflag r =
          (row_head pid ki_comm r ++ pad_right 45 trace ++ ['\n'], true)) ∧
    (r.kkst_state ≠ K.KKST_STATE_STACKOK → ∀ other : List Char,
      procstat_kstack_row K pid ki_comm kflag ⟨r.kkst_tid, r.kkst_state, other⟩ =
        procstat_kstack_row K pid ki_comm kflag r) := by
  obtain ⟨hrs, hrk, hsk⟩ := K.state_distinct
  have hc : ∀ t : String, (∀ c ∈ t.toList, c ≠ '\x00') →
      row_tail t.toList = pad_right 45 t.toList ++ ['\n'] := by
    intro t ht
    rw [row_tail, cstr_of_no_nul _ ht]
  have h1 := hc "<running>" (by decide)
  have h2 := hc "<swapped>" (by decide)
  have h3 := hc "<unknown>" (by decide)
  refine ⟨?_, ?_, ?_, ?_, ?_⟩
  · intro h
    simp only [procstat_kstack_row, h, if_true, h1, List.append_assoc]
  · intro h
    have hne : K.KKST_STATE_SWAPPED ≠ K.KKST_STATE_RUNNING := fun e => hrs e.symm
    simp only [procstat_kstack_row, h, hne, if_true, if_false, h2, List.append_assoc]
  · intro ha hb hc1
    simp only [procstat_kstack_row, ha, hb, hc1, if_false, h3, List.append_assoc]
  · intro h
    obtain ⟨trace, ht⟩ := kstack_cleanup_returns r.kkst_trace kflag
    refine ⟨trace, ht, ?_⟩
    have hne1 : K.KKST_STATE_STACKOK ≠ K.KKST_STATE_RUNNING := fun e => hrk e.symm
    have hne2 : K.KKST_STATE_STACKOK ≠ K.KKST_STATE_SWAPPED := fun e => hsk e.symm
    simp only [procstat_kstack_row, h, hne1, hne2, if_true, if_false, ht, row_tail,
      cstr_kstack_cleanup _ _ _ ht, List.append_assoc]
  · intro h other
    simp only [procstat_kstack_row, h, if_false, row_head]

/-- Scenario B of claim C4: the row of a swapped-out thread whose `kkst_trace` holds
a whole trace shows `<swapped>`, and is the row printed with an empty
`kkst_trace`. -/
theorem procstat_kstack_row_field_witness :
    swapped_thread.kkst_state = freebsd.KKST_STATE_SWAPPED ∧
    (procstat_kstack_row freebsd 1 "init".toList 0 swapped_thread).1 =
      "    1 100001 init                 <swapped>                                    \n".toList ∧
    procstat_kstack_row freebsd 1 "init".toList 0 ⟨100001, 1, []⟩ =
      procstat_kstack_row freebsd 1 "init".toList 0 swapped_thread :=
  ⟨rfl,
    (congrArg Prod.fst
      ((procstat_kstack_row_field freebsd 1 "init".toList 0 swapped_thread).2.1 rfl)).trans
      (by decide),
    (procstat_kstack_row_field freebsd 1 "init".toList 0 swapped_thread).2.2.2.2
      (by decide) []⟩

/-! ## Failures of the queries -/

/-- Claim C5, counterexample: with FreeBSD's error numbers, a size query that
fails with `ENOENT` does not make `procstat_kstack` return silently: `errx`
writes a diagnostic and ends the process with status -1. -/
theorem procstat_kstack_enoent_not_silent :
    (size_fails freebsd.ENOENT).size_error < 0 ∧
    (size_fails freebsd.ENOENT).size_errno = freebsd.ENOENT ∧
    (procstat_kstack freebsd 1 (size_fails freebsd.ENOENT) 1 "init".toList 0).stderr =
      [Diag.errx (-1) "kern.proc.kstack sysctl unavailable; options DDB is required."] ∧
    (procstat_kstack freebsd 1 (size_fails freebsd.ENOENT) 1 "init".toList 0).exit =
      some (-1) ∧
    ¬ ((procstat_kstack freebsd 1 (size_fails freebsd.ENOENT) 1 "init".toList 0).stderr = [] ∧
      (procstat_kstack freebsd 1 (size_fails freebsd.ENOENT) 1 "init".toList 0).exit = none) := by
  decide

/-- Claim C5, amended: if the size query fails with `ESRCH` or `EPERM`,
`procstat_kstack` returns silently: nothing is written to standard error, the
process is not ended, and no thread row is printed. -/
theorem procstat_kstack_silent (K : Consts) (hflag : Int) (os : Kernel) (pid : Int)
    (ki_comm : List Char) (kflag : Int) (hfail : os.size_error < 0)
    (herr : os.size_errno = K.ESRCH ∨ os.size_errno = K.EPERM) :
    (procstat_kstack K hflag os pid ki_comm kflag).stderr = [] ∧
    (procstat_kstack K hflag os pid ki_comm kflag).exit = none ∧
    (procstat_kstack K hflag os pid ki_comm kflag).stdout = no_row_output hflag := by
  obtain ⟨h1, h2, h3⟩ := K.errno_distinct
  have hne : os.size_errno ≠ K.ENOENT := by
    rcases herr with h | h <;> rw [h] <;> assumption
  have hnot : ¬ (os.size_error < 0 ∧ os.size_errno ≠ K.ESRCH ∧ os.size_errno ≠ K.EPERM ∧
      os.size_errno ≠ K.ENOENT) := by
    rintro ⟨_, ha, hb, _⟩
    rcases herr with h | h
    · exact ha h
    · exact hb h
  have hnot2 : ¬ (os.size_error < 0 ∧ os.size_errno = K.ENOENT) := fun h => hne h.2
  simp only [procstat_kstack, if_neg hnot, if_neg hnot2, if_pos hfail, no_row_output,
    and_self]

/-- An instance of amended claim C5: a size query failing with `EPERM`, headers
suppressed. -/
theorem procstat_kstack_silent_witness :
    (size_fails freebsd.EPERM).size_error < 0 ∧
    (procstat_kstack freebsd 1 (size_fails freebsd.EPERM) 1 "init".toList 0).stderr = [] ∧
    (procstat_kstack freebsd 1 (size_fails freebsd.EPERM) 1 "init".toList 0).exit = none ∧
    (procstat_kstack freebsd 1 (size_fails freebsd.EPERM) 1 "init".toList 0).stdout = [] :=
  ⟨by decide,
    procstat_kstack_silent freebsd 1 (size_fails freebsd.EPERM) 1 "init".toList 0
      (by decide) (Or.inr rfl)⟩

/-- Claim C6: if the size query fails with `ENOENT` (the kernel has no
`kern.proc.kstack`), `procstat_kstack` ends the process through `errx`: the one
diagnostic is the `errx` message, not a warning, the call does not return, and
no thread row is printed. -/
theorem procstat_kstack_unavailable (K : Consts) (hflag : Int) (os : Kernel) (pid : Int)
    (ki_comm : List Char) (kflag : Int) (hfail : os.size_error < 0)
    (herr : os.size_errno = K.ENOENT) :
    (procstat_kstack K hflag os pid ki_comm kflag).stderr =
      [Diag.errx (-1) "kern.proc.kstack sysctl unavailable; options DDB is required."] ∧
    (procstat_kstack K hflag os pid ki_comm kflag).exit = some (-1) ∧
    (procstat_kstack K hflag os pid ki_comm kflag).stdout = no_row_output hflag := by
  have hnot : ¬ (os.size_error < 0 ∧ os.size_errno ≠ K.ESRCH ∧ os.size_errno ≠ K.EPERM ∧
      os.size_errno ≠ K.ENOENT) := fun h => h.2.2.2 herr
  simp only [procstat_kstack, if_neg hnot, if_pos (And.intro hfail herr), no_row_output,
    and_self]

/-- Scenario D of claim C6, with the header not suppressed: the header, the `errx`
diagnostic, exit status -1. -/
theorem procstat_kstack_unavailable_witness :
    (size_fails freebsd.ENOENT).size_error < 0 ∧
    (procstat_kstack freebsd 0 (size_fails freebsd.ENOENT) 1 "init".toList 0).stderr =
      [Diag.errx (-1) "kern.proc.kstack sysctl unavailable; options DDB is required."] ∧
    (procstat_kstack freebsd 0 (size_fails freebsd.ENOENT) 1 "init".toList 0).exit = some (-1) ∧
    (procstat_kstack freebsd 0 (size_fails freebsd.ENOENT) 1 "init".toList 0).stdout = header :=
  ⟨by decide,
    procstat_kstack_unavailable freebsd 0 (size_fails freebsd.ENOENT) 1 "init".toList 0
      (by decide) rfl⟩

/-- Claim C7: if the size query fails with an error number other than `ESRCH`,
`EPERM` and `ENOENT`, or if the size query succeeds and the fetch query (made
once `malloc` has returned a buffer) fails, `procstat_kstack` writes exactly one
warning, which carries the pid and the error number of the failed query, prints
no thread row, and returns without ending the process. -/
theorem procstat_kstack_warns (K : Consts) (hflag : Int) (os : Kernel) (pid : Int)
    (ki_comm : List Char) (kflag : Int)
    (h : (os.size_error < 0 ∧ os.size_errno ≠ K.ESRCH ∧ os.size_errno ≠ K.EPERM ∧
          os.size_errno ≠ K.ENOENT) ∨
        (¬ os.size_error < 0 ∧ os.malloc_ok = true ∧ os.fetch_error < 0)) :
    (∃ fmt errno, (procstat_kstack K hflag os pid ki_comm kflag).stderr =
        [Diag.warn fmt pid errno] ∧
      errno = (if os.size_error < 0 then os.size_errno else os.fetch_errno)) ∧
    (procstat_kstack K hflag os pid ki_comm kflag).exit = none ∧
    (procstat_kstack K hflag os pid ki_comm kflag).stdout = no_row_output hflag := by
  rcases h with h | ⟨h1, h2, h3⟩
  · simp only [procstat_kstack, if_pos h, if_pos h.1, no_row_output, and_self, and_true]
    exact ⟨_, _, rfl, rfl⟩
  · have hnot : ¬ (os.size_error < 0 ∧ os.size_errno ≠ K.ESRCH ∧ os.size_errno ≠ K.EPERM ∧
        os.size_errno ≠ K.ENOENT) := fun h => h1 h.1
    have hnot2 : ¬ (os.size_error < 0 ∧ os.size_errno = K.ENOENT) := fun h => h1 h.1
    have hm : ¬ (os.malloc_ok = false) := by simp [h2]
    simp only [procstat_kstack, if_neg hnot, if_neg hnot2, if_neg h1, if_neg hm, if_pos h3,
      no_row_output, and_self, and_true]
    exact ⟨_, _, rfl, rfl⟩

/-- Instances of claim C7: a size query failing with error number 12, and a fetch
query failing with error number 12 after a successful size query. -/
theorem procstat_kstack_warns_witness :
    (procstat_kstack freebsd 1 (size_fails 12) 1 "init".toList 0 =
      ⟨[], [Diag.warn "sysctl: kern.proc.kstack: %d" 1 12], none⟩ ∧
     procstat_kstack freebsd 1 (fetch_fails 12) 1 "init".toList 0 =
      ⟨[], [Diag.warn "sysctl: kern.proc.pid: %d" 1 12], none⟩) ∧
    (∃ fmt errno, (procstat_kstack freebsd 1 (fetch_fails 12) 1 "init".toList 0).stderr =
        [Diag.warn fmt 1 errno] ∧
      errno = (if (fetch_fails 12).size_error < 0 then (fetch_fails 12).size_errno
        else (fetch_fails 12).fetch_errno)) :=
  ⟨by decide,
    (procstat_kstack_warns freebsd 1 (fetch_fails 12) 1 "init".toList 0
      (Or.inr (by decide))).1⟩

/-- Claim C8, counterexample: with `hflag = 0` and a size query that fails with
`ESRCH`, standard output is not empty: it holds the header line. -/
theorem procstat_kstack_esrch_header :
    (size_fails freebsd.ESRCH).size_error < 0 ∧
    (size_fails freebsd.ESRCH).size_errno = freebsd.ESRCH ∧
    (procstat_kstack freebsd 0 (size_fails freebsd.ESRCH) 1 "init".toList 0).stdout =
      "  PID    TID COMM                 KSTACK                                       \n".toList ∧
    (procstat_kstack freebsd 0 (size_fails freebsd.ESRCH) 1 "init".toList 0).stdout ≠ [] := by
  decide

/-- Claim C8, amended: if the size query fails with `ESRCH`, no warning is
emitted, the call returns, and no thread row is printed: standard output is
empty when `hflag` is set, and holds the header line and nothing else when
`hflag` is not set. -/
theorem procstat_kstack_esrch (K : Consts) (hflag : Int) (os : Kernel) (pid : Int)
    (ki_comm : List Char) (kflag : Int) (hfail : os.size_error < 0)
    (herr : os.size_errno = K.ESRCH) :
    (procstat_kstack K hflag os pid ki_comm kflag).stderr = [] ∧
    (procstat_kstack K hflag os pid ki_comm kflag).exit = none ∧
    (hflag ≠ 0 → (procstat_kstack K hflag os pid ki_comm kflag).stdout = []) ∧
    (hflag = 0 → (procstat_kstack K hflag os pid ki_comm kflag).stdout = header) := by
  obtain ⟨h1, h2, h3⟩ := K.errno_distinct
  have hnot : ¬ (os.size_error < 0 ∧ os.size_errno ≠ K.ESRCH ∧ os.size_errno ≠ K.EPERM ∧
      os.size_errno ≠ K.ENOENT) := fun h => h.2.1 herr
  have hnot2 : ¬ (os.size_error < 0 ∧ os.size_errno = K.ENOENT) :=
    fun h => h2 (herr.symm.trans h.2)
  simp only [procstat_kstack, if_neg hnot, if_neg hnot2, if_pos hfail, true_and]
  exact ⟨fun h => if_neg h, fun h => if_pos h⟩

/-- Scenario C of amended claim C8, both ways: with `hflag = 1` nothing at all is
written; with `hflag = 0` the header is. -/
theorem procstat_kstack_esrch_witness :
    procstat_kstack freebsd 1 (size_fails freebsd.ESRCH) 1 "init".toList 0 = ⟨[], [], none⟩ ∧
    (procstat_kstack freebsd 0 (size_fails freebsd.ESRCH) 1 "init".toList 0).stderr = [] ∧
    (procstat_kstack freebsd 0 (size_fails freebsd.ESRCH) 1 "init".toList 0).stdout = header :=
  ⟨by decide,
    (procstat_kstack_esrch freebsd 0 (size_fails freebsd.ESRCH) 1 "init".toList 0
      (by decide) rfl).1,
    (procstat_kstack_esrch freebsd 0 (size_fails freebsd.ESRCH) 1 "init".toList 0
      (by decide) rfl).2.2.2 rfl⟩

/-! ## Lemmas on the state of the cleaner -/

/-- The loop of `kstack_cleanup` returns the text its state-returning copy
returns. -/
theorem loop_eq_scan (kflag : Int) (s : List Char) (ts : trace_state) (new : List Char) :
    kstack_cleanup_loop kflag s ts new =
      (kstack_cleanup_scan kflag s ts new).map Prod.snd := by
  induction s generalizing ts new with
  | nil => rfl
  | cons c s ih =>
    unfold kstack_cleanup_loop kstack_cleanup_scan
    by_cases h0 : c = '\x00'
    · simp [h0]
    · by_cases hd : is_delim c
      · cases hn : kstack_nextstate ts with
        | none => simp [h0, hd]
        | some ts1 => simp only [h0, hd, if_true, if_false, ih]
      · simp only [h0, hd, if_false, ih]

/-- On an enumerator `kstack_nextstate` is the successor modulo 5. -/
theorem kstack_nextstate_mod (ts : Nat) (h : ts ≤ 4) :
    kstack_nextstate ts = some ((ts + 1) % 5) := by
  interval_cases ts <;> rfl

theorem cstr_nil : cstr [] = [] := rfl

theorem cstr_nul (rest : List Char) : cstr ('\x00' :: rest) = [] := by
  simp [cstr]

theorem cstr_cons {c : Char} (h0 : c ≠ '\x00') (rest : List Char) :
    cstr (c :: rest) = c :: cstr rest := by
  simp [cstr, List.takeWhile_cons, h0]

theorem delim_count_cons_delim {c : Char} (hd : is_delim c) (s : List Char) :
    delim_count (c :: s) = delim_count s + 1 := by
  simp [delim_count, List.countP_cons, hd]

theorem delim_count_cons_plain {c : Char} (hd : ¬ is_delim c) (s : List Char) :
    delim_count (c :: s) = delim_count s := by
  simp [delim_count, List.countP_cons, hd]

/-- What one run of the loop does, from any enumerator `ts` and any text `new`
written so far: it ends in the state `ts` advanced once for each delimiter of
the string, and has appended a text `out`, the same for every `new`, whose
spaces are the passages from `TS_OFF` to `TS_FRAMENUM`. -/
theorem scan_spec (kflag : Int) (s : List Char) (ts : Nat) (h : ts ≤ 4) :
    ∃ out, (∀ new, kstack_cleanup_scan kflag s ts new =
        some ((ts + delim_count (cstr s)) % 5, new ++ out)) ∧
      out.count ' ' = (ts + delim_count (cstr s)) / 5 := by
  induction s generalizing ts with
  | nil =>
    refine ⟨[], fun new => ?_, ?_⟩
    · simp only [kstack_cleanup_scan, cstr_nil, delim_count, List.countP_nil, Nat.add_zero,
        List.append_nil]
      rw [Nat.mod_eq_of_lt (by omega)]
    · simp only [cstr_nil, delim_count, List.countP_nil, List.count_nil]
      omega
  | cons c s ih =>
    by_cases h0 : c = '\x00'
    · subst h0
      refine ⟨[], fun new => ?_, ?_⟩
      · simp only [kstack_cleanup_scan, cstr_nul, delim_count, List.countP_nil, Nat.add_zero,
          List.append_nil, if_true]
        rw [Nat.mod_eq_of_lt (by omega)]
      · simp only [cstr_nul, delim_count, List.countP_nil, List.count_nil]
        omega
    · by_cases hd : is_delim c
      · have hn := kstack_nextstate_mod ts h
        have h1 : (ts + 1) % 5 ≤ 4 := by omega
        obtain ⟨out1, ho, hc⟩ := ih ((ts + 1) % 5) h1
        rw [cstr_cons h0, delim_count_cons_delim hd]
        by_cases hoff : ts = 4
        · subst hoff
          refine ⟨' ' :: out1, fun new => ?_, ?_⟩
          · have e := ho (new ++ [' '])
            simp only [kstack_cleanup_scan, h0, hd, hn, if_true, if_false]
            simp only [List.append_assoc, List.singleton_append] at e
            simpa using e.trans (by congr 2; omega)
          · rw [List.count_cons_self, hc]
            omega
        · by_cases hf : kflag > 1 ∧ ts = 3
          · obtain ⟨hk, hf3⟩ := hf
            subst hf3
            refine ⟨'+' :: out1, fun new => ?_, ?_⟩
            · have e := ho (new ++ ['+'])
              simp only [kstack_cleanup_scan, h0, hd, hn, if_true, if_false]
              simp only [List.append_assoc, List.singleton_append] at e
              simpa [hk] using e.trans (by congr 2; omega)
            · rw [List.count_cons_of_ne (by decide), hc]
              omega
          · refine ⟨out1, fun new => ?_, ?_⟩
            · have e := ho new
              simp only [kstack_cleanup_scan, h0, hd, hn, if_true, if_false]
              have hoff1 : ¬ ts = TS_OFF := hoff
              have hf1 : ¬ (kflag > 1 ∧ ts = TS_FUNC) := hf
              simp only [hoff1, hf1, if_false]
              exact e.trans (by congr 2; omega)
            · rw [hc]
              omega
      · obtain ⟨out1, ho, hc⟩ := ih ts h
        rw [cstr_cons h0, delim_count_cons_plain hd]
        have hsp : c ≠ ' ' := fun e => hd (Or.inl e)
        by_cases hcopy : ts = TS_FUNC ∨ (kflag > 1 ∧ ts = TS_OFF)
        · refine ⟨c :: out1, fun new => ?_, ?_⟩
          · have e := ho (new ++ [c])
            simp only [kstack_cleanup_scan, h0, hd, hcopy, if_true, if_false]
            simpa using e
          · rw [List.count_cons_of_ne (fun e => hsp e.symm), hc]
        · refine ⟨out1, fun new => ?_, hc⟩
          simp only [kstack_cleanup_scan, h0, hd, hcopy, if_false]
          exact ho new

/-- The loop on a string, from an enumerator: the text written, with its count of
spaces. -/
theorem loop_spec (kflag : Int) (s : List Char) (ts : Nat) (h : ts ≤ 4) :
    ∃ out, (∀ new, kstack_cleanup_loop kflag s ts new = some (new ++ out)) ∧
      out.count ' ' = (ts + delim_count (cstr s)) / 5 := by
  obtain ⟨out, ho, hc⟩ := scan_spec kflag s ts h
  refine ⟨out, fun new => ?_, hc⟩
  rw [loop_eq_scan, ho new]
  rfl

theorem scan_nul (kflag : Int) (rest : List Char) (ts : trace_state) (new : List Char) :
    kstack_cleanup_scan kflag ('\x00' :: rest) ts new = some (ts, new) := by
  simp [kstack_cleanup_scan]

theorem scan_plain (kflag : Int) {c : Char} (hd : ¬ is_delim c) (h0 : c ≠ '\x00')
    (rest : List Char) (ts : trace_state) (new : List Char) :
    kstack_cleanup_scan kflag (c :: rest) ts new =
      kstack_cleanup_scan kflag rest ts
        (if ts = TS_FUNC ∨ (kflag > 1 ∧ ts = TS_OFF) then new ++ [c] else new) := by
  simp [kstack_cleanup_scan, hd, h0]

theorem scan_delim (kflag : Int) {c : Char} (hd : is_delim c) (ts ts1 : trace_state)
    (hn : kstack_nextstate ts = some ts1) (rest new : List Char) :
    kstack_cleanup_scan kflag (c :: rest) ts new =
      kstack_cleanup_scan kflag rest ts1
        (if kflag > 1 ∧ ts = TS_FUNC then (if ts = TS_OFF then new ++ [' '] else new) ++ ['+']
          else (if ts = TS_OFF then new ++ [' '] else new)) := by
  simp [kstack_cleanup_scan, hd, is_delim_ne_nul hd, hn]

theorem scan_errx (kflag : Int) {c : Char} (hd : is_delim c) (ts : trace_state)
    (hn : kstack_nextstate ts = none) (rest new : List Char) :
    kstack_cleanup_scan kflag (c :: rest) ts new = none := by
  simp [kstack_cleanup_scan, hd, is_delim_ne_nul hd, hn]

/-- Reading on after a part `p` that holds no NUL: the loop goes on from the
state and the text `p` has led to. -/
theorem scan_append (kflag : Int) (p rest : List Char) (hp : ∀ c ∈ p, c ≠ '\x00')
    (ts : trace_state) (new : List Char) :
    kstack_cleanup_scan kflag (p ++ rest) ts new =
      (kstack_cleanup_scan kflag p ts new).bind
        (fun q => kstack_cleanup_scan kflag rest q.1 q.2) := by
  induction p generalizing ts new with
  | nil => simp [kstack_cleanup_scan]
  | cons c p ih =>
    have h0 : c ≠ '\x00' := hp c (List.mem_cons_self c p)
    have hp1 : ∀ d ∈ p, d ≠ '\x00' := fun d hd => hp d (List.mem_cons_of_mem c hd)
    rw [List.cons_append]
    by_cases hd : is_delim c
    · cases hn : kstack_nextstate ts with
      | none => rw [scan_errx kflag hd ts hn, scan_errx kflag hd ts hn]; rfl
      | some ts1 => rw [scan_delim kflag hd ts ts1 hn, scan_delim kflag hd ts ts1 hn, ih hp1]
    · rw [scan_plain kflag hd h0, scan_plain kflag hd h0, ih hp1]

theorem cstr_no_nul (s : List Char) : ∀ c ∈ cstr s, c ≠ '\x00' := by
  intro c hc
  have := List.mem_takeWhile_imp hc
  simpa using this

theorem cstr_cstr (s : List Char) : cstr (cstr s) = cstr s :=
  cstr_of_no_nul _ (cstr_no_nul s)

/-- The loop reads its input as a C string: what follows the first NUL is
not read. -/
theorem scan_cstr (kflag : Int) (s : List Char) (ts : trace_state) (new : List Char) :
    kstack_cleanup_scan kflag (cstr s) ts new = kstack_cleanup_scan kflag s ts new := by
  induction s generalizing ts new with
  | nil => rfl
  | cons c s ih =>
    by_cases h0 : c = '\x00'
    · subst h0
      rw [cstr_nul, scan_nul]
      rfl
    · rw [cstr_cons h0]
      by_cases hd : is_delim c
      · cases hn : kstack_nextstate ts with
        | none => rw [scan_errx kflag hd ts hn, scan_errx kflag hd ts hn]
        | some ts1 => rw [scan_delim kflag hd ts ts1 hn, scan_delim kflag hd ts ts1 hn, ih]
      · rw [scan_plain kflag hd h0, scan_plain kflag hd h0, ih]

theorem kstack_cleanup_cstr (s : List Char) (kflag : Int) :
    kstack_cleanup (cstr s) kflag = kstack_cleanup s kflag := by
  unfold kstack_cleanup
  rw [loop_eq_scan, loop_eq_scan, scan_cstr]

/-- The loop on `p ++ rest`, for a part `p` without NUL read from
`TS_FRAMENUM`: it goes on with `rest` in the state numbered by the delimiters of
`p` modulo 5. -/
theorem loop_append (kflag : Int) (p rest : List Char) (hp : ∀ c ∈ p, c ≠ '\x00') :
    ∃ out, kstack_cleanup_scan kflag p TS_FRAMENUM [] = some (delim_count p % 5, out) ∧
      kstack_cleanup_loop kflag p TS_FRAMENUM [] = some out ∧
      kstack_cleanup_loop kflag (p ++ rest) TS_FRAMENUM [] =
        kstack_cleanup_loop kflag rest (delim_count p % 5) out := by
  obtain ⟨out, ho, _⟩ := scan_spec kflag p 0 (by decide)
  have h1 := ho []
  rw [cstr_of_no_nul p hp] at h1
  simp only [Nat.zero_add, List.nil_append] at h1
  refine ⟨out, h1, ?_, ?_⟩
  · rw [loop_eq_scan, h1]; rfl
  · rw [loop_eq_scan, scan_append kflag p rest hp, h1, loop_eq_scan]
    rfl

/-- The fifth, and no earlier, application of `kstack_nextstate` is back at the
state it started from. -/
theorem kstack_nextstate_iter_cycle (ts : Nat) (h : ts ≤ 4) :
    kstack_nextstate_iter 5 ts = some ts ∧
    ∀ n, 0 < n → n < 5 → kstack_nextstate_iter n ts ≠ some ts := by
  refine ⟨by interval_cases ts <;> rfl, fun n h0 h5 => ?_⟩
  interval_cases ts <;> interval_cases n <;> decide

theorem kstack_nextstate_none (ts : Nat) : kstack_nextstate ts = none ↔ 4 < ts := by
  constructor
  · intro h
    by_contra hc
    have h4 : ts ≤ 4 := by omega
    rw [kstack_nextstate_mod ts h4] at h
    exact Option.noConfusion h
  · intro h
    unfold kstack_nextstate
    have e0 : ts ≠ 0 := by omega
    have e1 : ts ≠ 1 := by omega
    have e2 : ts ≠ 2 := by omega
    have e3 : ts ≠ 3 := by omega
    have e4 : ts ≠ 4 := by omega
    simp [e0, e1, e2, e3, e4]

theorem delim_count_append (a b : List Char) :
    delim_count (a ++ b) = delim_count a + delim_count b := by
  simp [delim_count, List.countP_append]

theorem delim_count_token (w : List Char) (hw : is_token w) : delim_count w = 0 := by
  unfold delim_count
  rw [List.countP_eq_zero]
  intro c hc
  simpa using (hw c hc).1

theorem count_space_token (w : List Char) (hw : is_token w) : w.count ' ' = 0 := by
  rw [List.count_eq_zero]
  intro hm
  exact (hw ' ' hm).1 is_delim_space

/-- The names-only rendering of `k` well-formed frames holds no NUL, `k`
delimiters and `k` spaces. -/
theorem names_only_counts (fs : List Frame) (hfs : ∀ f ∈ fs, f.wf) :
    (∀ c ∈ names_only fs, c ≠ '\x00') ∧ delim_count (names_only fs) = fs.length ∧
      (names_only fs).count ' ' = fs.length := by
  induction fs with
  | nil => simp [names_only, delim_count]
  | cons f fs ih =>
    have hf : is_token f.func := (hfs f (List.mem_cons_self f fs)).2.2.2.1
    obtain ⟨h1, h2, h3⟩ := ih (fun g hg => hfs g (List.mem_cons_of_mem f hg))
    refine ⟨?_, ?_, ?_⟩
    · intro c hc
      simp only [names_only, List.append_assoc, List.mem_append, List.mem_singleton] at hc
      rcases hc with hc | hc | hc
      · exact (hf c hc).2
      · rw [hc]; decide
      · exact h1 c hc
    · simp only [names_only, delim_count_append, delim_count_token _ hf, h2, List.length_cons]
      have : delim_count [' '] = 1 := by decide
      omega
    · simp only [names_only, List.count_append, count_space_token _ hf, h3, List.length_cons]
      have : List.count ' ' [' '] = 1 := by decide
      omega

/-! ## Cleaning twice -/

/-- Claim C11, counterexample: the names-only result of scenario A is
`"somefunc "`, and cleaning that once more gives the empty string: the name now
stands in the frame-number slot. -/
theorem kstack_cleanup_twice_differs :
    (∀ f ∈ [scenario_frame], f.wf) ∧
    kstack_cleanup (raw_trace [scenario_frame]) 0 = some "somefunc ".toList ∧
    kstack_cleanup "somefunc ".toList 0 = some [] ∧
    kstack_cleanup "somefunc ".toList 0 ≠ kstack_cleanup (raw_trace [scenario_frame]) 0 := by
  refine ⟨by simp [scenario_frame, Frame.wf, is_token, is_delim], by decide, by decide,
    by decide⟩

/-- Claim C11, amended: for a well-formed raw trace of `k` frames, cleaning the
names-only result once more returns a string with `k / 5` spaces (rounded
down) where the names-only result has `k`; it returns the names-only result
again if and only if the trace has no frame. -/
theorem kstack_cleanup_twice (fs : List Frame) (hfs : ∀ f ∈ fs, f.wf) :
    kstack_cleanup (raw_trace fs) 0 = some (names_only fs) ∧
    (names_only fs).count ' ' = fs.length ∧
    ∃ again, kstack_cleanup (names_only fs) 0 = some again ∧
      again.count ' ' = fs.length / 5 ∧
      (again = names_only fs ↔ fs = []) := by
  obtain ⟨h1, h2, h3⟩ := names_only_counts fs hfs
  have hfirst : kstack_cleanup (raw_trace fs) 0 = some (names_only fs) := by
    have h := loop_trace_names 0 (by decide) fs hfs []
    simpa [kstack_cleanup] using h
  obtain ⟨again, ha, hc⟩ := loop_spec 0 (names_only fs) 0 (by decide)
  rw [cstr_of_no_nul _ h1, h2, Nat.zero_add] at hc
  have ha1 : kstack_cleanup (names_only fs) 0 = some again := by
    have := ha []
    simpa [kstack_cleanup] using this
  refine ⟨hfirst, h3, again, ha1, hc, ?_, ?_⟩
  · intro he
    rw [he, h3] at hc
    have hl : fs.length = 0 := by omega
    exact List.length_eq_zero.mp hl
  · intro he
    subst he
    have : kstack_cleanup (names_only []) 0 = some [] := by decide
    rw [this] at ha1
    exact (Option.some.inj ha1).symm

/-- Instances of amended claim C11: no frame (the empty trace cleans to the empty
string, twice), and the frame of scenario A (the second cleaning has no space,
the first has one). -/
theorem kstack_cleanup_twice_witness :
    (∃ again, kstack_cleanup (names_only []) 0 = some again ∧ again = names_only []) ∧
    (∃ again, kstack_cleanup (names_only [scenario_frame]) 0 = some again ∧
      again.count ' ' = 0 ∧ (names_only [scenario_frame]).count ' ' = 1) := by
  obtain ⟨_, _, a0, h0, _, hiff0⟩ := kstack_cleanup_twice [] (by simp)
  obtain ⟨_, hn, a1, h1, hc1, _⟩ := kstack_cleanup_twice [scenario_frame]
    (by simp [scenario_frame, Frame.wf, is_token, is_delim])
  exact ⟨⟨a0, h0, hiff0.mpr rfl⟩, ⟨a1, h1, by simpa using hc1, by simpa using hn⟩⟩

/-! ## The comparison of thread ids -/

/-- Claim C14: with 32-bit thread ids and the difference taken modulo 2^32,
there are thread ids `a < b` for which `kinfo_kstack_compare` returns a
positive value; `a = -2147483648`, `b = 1` are such a pair, the value being
2147483647. -/
theorem kinfo_kstack_compare_misorders :
    (∃ a b : kinfo_kstack, is_int32 a.kkst_tid ∧ is_int32 b.kkst_tid ∧
      a.kkst_tid < b.kkst_tid ∧ 0 < kinfo_kstack_compare a b) ∧
    (∀ st1 st2 : Int, ∀ tr1 tr2 : List Char,
      kinfo_kstack_compare ⟨-2147483648, st1, tr1⟩ ⟨1, st2, tr2⟩ = 2147483647) :=
  ⟨⟨⟨-2147483648, 0, []⟩, ⟨1, 0, []⟩, by decide, by decide, by decide, by decide⟩,
    fun _ _ _ _ => rfl⟩

/-- Claim C17: for thread ids `0 ≤ a, b ≤ 2^31 - 1` the 32-bit difference
`kinfo_kstack_compare` returns is a correct three-way comparison: negative
exactly when `a < b`, zero exactly when `a = b`, positive exactly when
`a > b`; hence the sort of records with such thread ids leaves the thread ids
in non-decreasing order (and the records are those given). -/
theorem kinfo_kstack_compare_three_way (l : List kinfo_kstack)
    (hl : ∀ r ∈ l, 0 ≤ r.kkst_tid ∧ r.kkst_tid ≤ 2147483647) :
    (∀ a ∈ l, ∀ b ∈ l,
      (kinfo_kstack_compare a b < 0 ↔ a.kkst_tid < b.kkst_tid) ∧
      (kinfo_kstack_compare a b = 0 ↔ a.kkst_tid = b.kkst_tid) ∧
      (0 < kinfo_kstack_compare a b ↔ b.kkst_tid < a.kkst_tid)) ∧
    (kinfo_kstack_sort l).Pairwise (fun a b => a.kkst_tid ≤ b.kkst_tid) ∧
    (kinfo_kstack_sort l).Perm l := by
  refine ⟨fun a ha b hb => ?_, kinfo_kstack_sort_sorted l hl, kinfo_kstack_sort_perm l⟩
  rw [kinfo_kstack_compare_exact a b (hl a ha) (hl b hb)]
  refine ⟨?_, ?_, ?_⟩ <;> constructor <;> intro h <;> omega

/-- An instance of claim C17, with the extreme thread ids 2147483647 and 0 and
scenario E in between: the comparison of 0 with 2147483647 is negative, and the
four records are sorted. -/
theorem kinfo_kstack_compare_three_way_witness :
    kinfo_kstack_compare ⟨0, 0, []⟩ ⟨2147483647, 0, []⟩ < 0 ∧
    (kinfo_kstack_sort [⟨2147483647, 0, []⟩, ⟨42, 0, []⟩, ⟨7, 0, []⟩, ⟨0, 0, []⟩]).map
      (fun r => r.kkst_tid) = [0, 7, 42, 2147483647] ∧
    (kinfo_kstack_sort [⟨2147483647, 0, []⟩, ⟨42, 0, []⟩, ⟨7, 0, []⟩, ⟨0, 0, []⟩]).Pairwise
      (fun a b => a.kkst_tid ≤ b.kkst_tid) :=
  ⟨((kinfo_kstack_compare_three_way
      [⟨2147483647, 0, []⟩, ⟨42, 0, []⟩, ⟨7, 0, []⟩, ⟨0, 0, []⟩] (by decide)).1
      ⟨0, 0, []⟩ (by decide) ⟨2147483647, 0, []⟩ (by decide)).1.mpr (by decide),
    by decide,
    (kinfo_kstack_compare_three_way
      [⟨2147483647, 0, []⟩, ⟨42, 0, []⟩, ⟨7, 0, []⟩, ⟨0, 0, []⟩] (by decide)).2.1⟩

/-! ## The state of the cleaner -/

/-- Claim C16: `kstack_nextstate` is the cycle FRAMENUM, PC, AT, FUNC, OFF,
FRAMENUM: five applications lead back to the state they start from, fewer do
not, and the `default:` arm is taken by no enumerator.  After a prefix `p` of
the input with `d` delimiters the loop is in state `d mod 5` (the `d mod 5`-th
of the cycle) and goes on from there with the rest; so the cleaner returns for
every input and every `kflag`, and its output has `d / 5` spaces (rounded
down) for the `d` delimiters of the whole input string. -/
theorem kstack_state_counts_delims (old : List Char) (kflag : Int) :
    (kstack_nextstate TS_FRAMENUM = some TS_PC ∧ kstack_nextstate TS_PC = some TS_AT ∧
      kstack_nextstate TS_AT = some TS_FUNC ∧ kstack_nextstate TS_FUNC = some TS_OFF ∧
      kstack_nextstate TS_OFF = some TS_FRAMENUM) ∧
    (∀ ts, ts ≤ TS_OFF → kstack_nextstate_iter 5 ts = some ts ∧
      ∀ n, 0 < n → n < 5 → kstack_nextstate_iter n ts ≠ some ts) ∧
    (∀ ts, kstack_nextstate ts = none ↔ TS_OFF < ts) ∧
    (∀ p rest, (∀ c ∈ p, c ≠ '\x00') →
      ∃ out, kstack_cleanup_scan kflag p TS_FRAMENUM [] = some (delim_count p % 5, out) ∧
        kstack_cleanup_loop kflag (p ++ rest) TS_FRAMENUM [] =
          kstack_cleanup_loop kflag rest (delim_count p % 5) out) ∧
    (∃ out, kstack_cleanup old kflag = some out ∧
      out.count ' ' = delim_count (cstr old) / 5) := by
  refine ⟨⟨rfl, rfl, rfl, rfl, rfl⟩, fun ts h => kstack_nextstate_iter_cycle ts h,
    fun ts => kstack_nextstate_none ts, fun p rest hp => ?_, ?_⟩
  · obtain ⟨out, h1, _, h3⟩ := loop_append kflag p rest hp
    exact ⟨out, h1, h3⟩
  · obtain ⟨out, ho, hc⟩ := loop_spec kflag old 0 (by decide)
    refine ⟨out, ?_, by simpa using hc⟩
    have := ho []
    simpa [kstack_cleanup] using this

/-- An instance of claim C16: scenario A twice over and a truncated third frame.
After the prefix `"0 0xffff At somefunc"` (3 delimiters) the state is `TS_FUNC`
and `"somefunc"` is written; the whole input has 13 delimiters and its output
2 spaces. -/
theorem kstack_state_counts_delims_witness :
    kstack_cleanup_scan 0 "0 0xffff At somefunc".toList TS_FRAMENUM [] =
      some (TS_FUNC, "somefunc".toList) ∧
    delim_count "0 0xffff At somefunc".toList = 3 ∧
    delim_count (cstr "0 1 At f+2\n1 3 At g+4\n2 5 At h".toList) = 13 ∧
    (∃ out, kstack_cleanup "0 1 At f+2\n1 3 At g+4\n2 5 At h".toList 0 = some out ∧
      out.count ' ' = 2 ∧ out = "f g h".toList) := by
  have h := kstack_state_counts_delims "0 1 At f+2\n1 3 At g+4\n2 5 At h".toList 0
  obtain ⟨_, _, _, hp, out, ho, hc⟩ := h
  obtain ⟨o1, h1, _⟩ := hp "0 0xffff At somefunc".toList [] (by decide)
  have e1 : kstack_cleanup_scan 0 "0 0xffff At somefunc".toList TS_FRAMENUM [] =
      some (TS_FUNC, "somefunc".toList) := by decide
  have e2 : kstack_cleanup "0 1 At f+2\n1 3 At g+4\n2 5 At h".toList 0 =
      some "f g h".toList := by decide
  refine ⟨e1, by decide, by decide, out, ho, ?_, ?_⟩
  · rw [hc]; decide
  · rw [e2] at ho
    exact (Option.some.inj ho).symm

/-! ## Cleaning a concatenation -/

/-- Claim C18: if the number of delimiters of the string `s` is a multiple of 5,
then for every `t` and every `kflag` the cleaning of `s` followed by `t` is the
cleaning of `s` followed by the cleaning of `t` (all three return).  The
string `s` is the bytes before the first NUL; when `s` holds no NUL, `s`
followed by `t` is `s ++ t`. -/
theorem kstack_cleanup_append (s t : List Char) (kflag : Int)
    (h : delim_count (cstr s) % 5 = 0) :
    ∃ a b, kstack_cleanup s kflag = some a ∧ kstack_cleanup t kflag = some b ∧
      kstack_cleanup (cstr s ++ t) kflag = some (a ++ b) ∧
      ((∀ c ∈ s, c ≠ '\x00') → kstack_cleanup (s ++ t) kflag = some (a ++ b)) := by
  obtain ⟨a, _, ha, hcont⟩ := loop_append kflag (cstr s) t (cstr_no_nul s)
  obtain ⟨b, hb, _⟩ := loop_spec kflag t 0 (by decide)
  rw [h] at hcont
  have ha1 : kstack_cleanup s kflag = some a := by
    rw [← kstack_cleanup_cstr]; exact ha
  have hb1 : kstack_cleanup t kflag = some b := by
    have := hb []
    simpa [kstack_cleanup] using this
  have hcat : kstack_cleanup (cstr s ++ t) kflag = some (a ++ b) := by
    unfold kstack_cleanup
    rw [hcont]
    exact hb a
  refine ⟨a, b, ha1, hb1, hcat, fun hs => ?_⟩
  rw [cstr_of_no_nul s hs] at hcat
  exact hcat

/-- An instance of claim C18: the frame of scenario A (5 delimiters) followed by a
truncated second frame, in detailed mode. -/
theorem kstack_cleanup_append_witness :
    delim_count (cstr "0 0xffff At somefunc+0x10\n".toList) % 5 = 0 ∧
    kstack_cleanup ("0 0xffff At somefunc+0x10\n".toList ++ "1 0xfffe At other+0x".toList) 2 =
      some ("somefunc+0x10 ".toList ++ "other+0x".toList) := by
  obtain ⟨a, b, ha, hb, _, hcat⟩ := kstack_cleanup_append
    "0 0xffff At somefunc+0x10\n".toList "1 0xfffe At other+0x".toList 2 (by decide)
  have ea : kstack_cleanup "0 0xffff At somefunc+0x10\n".toList 2 =
      some "somefunc+0x10 ".toList := by decide
  have eb : kstack_cleanup "1 0xfffe At other+0x".toList 2 = some "other+0x".toList := by
    decide
  rw [ea] at ha
  rw [eb] at hb
  rw [Option.some.inj ha, Option.some.inj hb]
  exact ⟨by decide, hcat (by decide)⟩

/-! ## The characters of the output -/

theorem forall_mem_snoc {Q : Char → Prop} (l : List Char) (c : Char) (hl : ∀ d ∈ l, Q d)
    (hc : Q c) : ∀ d ∈ l ++ [c], Q d := by
  intro d hd
  rcases List.mem_append.mp hd with h | h
  · exact hl d h
  · rw [List.mem_singleton] at h
    rw [h]; exact hc

/-- A property of the space, of the plus sign when `kflag > 1`, and of every
character of the input that is neither NUL nor a delimiter, is a property of
every character the loop writes. -/
theorem loop_chars (kflag : Int) (Q : Char → Prop) (hsp : Q ' ') (hplus : kflag > 1 → Q '+')
    (s : List Char) (hs : ∀ c ∈ s, ¬ is_delim c → c ≠ '\x00' → Q c) (ts : trace_state)
    (new out : List Char) (hnew : ∀ c ∈ new, Q c)
    (h : kstack_cleanup_loop kflag s ts new = some out) : ∀ c ∈ out, Q c := by
  induction s generalizing ts new with
  | nil =>
    rw [loop_nil] at h
    exact Option.some.inj h ▸ hnew
  | cons c s ih =>
    have hs1 : ∀ d ∈ s, ¬ is_delim d → d ≠ '\x00' → Q d :=
      fun d hd => hs d (List.mem_cons_of_mem c hd)
    by_cases h0 : c = '\x00'
    · subst h0
      rw [loop_nul] at h
      exact Option.some.inj h ▸ hnew
    · by_cases hd : is_delim c
      · cases hn : kstack_nextstate ts with
        | none => simp [kstack_cleanup_loop, hd, h0, hn] at h
        | some ts1 =>
          rw [loop_delim kflag hd ts ts1 hn] at h
          have hs2 := forall_mem_snoc new ' ' hnew hsp
          refine ih hs1 ts1 _ ?_ h
          split_ifs with hk hoff
          · exact forall_mem_snoc _ '+' hs2 (hplus hk.1)
          · exact forall_mem_snoc _ '+' hnew (hplus hk.1)
          · exact hs2
          · exact hnew
      · rw [loop_plain kflag hd h0] at h
        refine ih hs1 ts _ ?_ h
        split_ifs
        · exact forall_mem_snoc new c hnew (hs c (List.mem_cons_self c s) hd h0)
        · exact hnew

/-- The loop, entered in the state the text `before` has led to, appends for
every character of the string what `emitted_at` gives for it. -/
theorem loop_cleaned_after (kflag : Int) (s before : List Char) (ts : Nat)
    (hts : ts = delim_count before % 5) (new : List Char) :
    kstack_cleanup_loop kflag s ts new =
      some (new ++ cleaned_after kflag before (cstr s)) := by
  induction s generalizing before ts new with
  | nil => simp [loop_nil, cstr_nil, cleaned_after]
  | cons c s ih =>
    have h4 : ts ≤ 4 := by omega
    by_cases h0 : c = '\x00'
    · subst h0
      simp [loop_nul, cstr_nul, cleaned_after]
    · rw [cstr_cons h0, cleaned_after]
      by_cases hd : is_delim c
      · have hnext : (ts + 1) % 5 = delim_count (before ++ [c]) % 5 := by
          have hz : delim_count ([] : List Char) = 0 := rfl
          rw [delim_count_append, delim_count_cons_delim hd, hz]
          omega
        rw [loop_delim kflag hd ts ((ts + 1) % 5) (kstack_nextstate_mod ts h4),
          ih (before ++ [c]) ((ts + 1) % 5) hnext]
        congr 1
        simp only [emitted_at, hd, if_true, ← hts]
        by_cases hoff : ts = 4
        · have hf : ¬ ts = 3 := by omega
          simp [hoff]
        · by_cases hf : kflag > 1 ∧ ts = 3
          · simp [hf.1, hf.2]
          · have hf1 : ¬ (kflag > 1 ∧ ts = TS_FUNC) := hf
            have hoff1 : ¬ ts = TS_OFF := hoff
            simp [hf1, hoff1]
      · have hsame : ts = delim_count (before ++ [c]) % 5 := by
          have hz : delim_count ([] : List Char) = 0 := rfl
          rw [delim_count_append, delim_count_cons_plain hd, hz]
          omega
        rw [loop_plain kflag hd h0, ih (before ++ [c]) ts hsame]
        congr 1
        simp only [emitted_at, hd, if_false, ← hts]
        by_cases hcopy : ts = TS_FUNC ∨ (kflag > 1 ∧ ts = TS_OFF)
        · simp [hcopy]
        · simp [hcopy]

/-- Every character of `cleaned_after` is given by one character of the input, at
its place. -/
theorem mem_cleaned_after (kflag : Int) (before rest : List Char) (c : Char)
    (h : c ∈ cleaned_after kflag before rest) :
    ∃ p x q, rest = p ++ x :: q ∧ c ∈ emitted_at kflag (before ++ p) x := by
  induction rest generalizing before with
  | nil => simp [cleaned_after] at h
  | cons y rest ih =>
    rw [cleaned_after] at h
    rcases List.mem_append.mp h with h1 | h1
    · exact ⟨[], y, rest, rfl, by simpa using h1⟩
    · obtain ⟨p, x, q, hr, hc⟩ := ih (before ++ [y]) h1
      refine ⟨y :: p, x, q, by rw [hr]; rfl, ?_⟩
      simpa using hc

/-- Claim C15: for every input and every `kflag` the cleaner returns, and its
output is, character of the input after character, a space for each delimiter
that closes the offset slot (a frame boundary), with `kflag > 1` a plus sign
for each delimiter that closes the function-name slot, the character itself
for each non-delimiter in the function-name slot and with `kflag > 1` in the
offset slot, and nothing else.  So the output holds no newline, and with
`kflag ≤ 1` no plus sign: then every character of the output is a space
written for a delimiter read in state `TS_OFF`, or a non-delimiter of the input
read in state `TS_FUNC`. -/
theorem kstack_cleanup_chars (old : List Char) (kflag : Int) :
    ∃ out, kstack_cleanup old kflag = some out ∧
      out = cleaned_after kflag [] (cstr old) ∧
      (∀ c ∈ out, c = ' ' ∨ (kflag > 1 ∧ c = '+') ∨ (¬ is_delim c ∧ c ∈ old)) ∧
      '\n' ∉ out ∧
      (kflag ≤ 1 → '+' ∉ out ∧
        (∀ c ∈ out, c = ' ' ∨ (¬ is_delim c ∧ c ∈ old)) ∧
        ∀ c ∈ out, ∃ before x after, cstr old = before ++ x :: after ∧
          ((c = ' ' ∧ is_delim x ∧ delim_count before % 5 = TS_OFF) ∨
           (c = x ∧ ¬ is_delim x ∧ delim_count before % 5 = TS_FUNC))) := by
  have ho : kstack_cleanup old kflag = some (cleaned_after kflag [] (cstr old)) := by
    have := loop_cleaned_after kflag old [] 0 (by decide) []
    simpa [kstack_cleanup] using this
  have hq : ∀ c ∈ cleaned_after kflag [] (cstr old),
      c = ' ' ∨ (kflag > 1 ∧ c = '+') ∨ (¬ is_delim c ∧ c ∈ old) :=
    loop_chars kflag (fun c => c = ' ' ∨ (kflag > 1 ∧ c = '+') ∨ (¬ is_delim c ∧ c ∈ old))
      (Or.inl rfl) (fun hk => Or.inr (Or.inl ⟨hk, rfl⟩)) old
      (fun c hc hd _ => Or.inr (Or.inr ⟨hd, hc⟩)) TS_FRAMENUM [] _ (by simp) ho
  refine ⟨_, ho, rfl, hq, ?_, fun hk => ⟨?_, ?_, ?_⟩⟩
  · intro hm
    rcases hq _ hm with h | h | h
    · exact absurd h (by decide)
    · exact absurd h.2 (by decide)
    · exact h.1 is_delim_newline
  · intro hm
    rcases hq _ hm with h | h | h
    · exact absurd h (by decide)
    · omega
    · exact h.1 is_delim_plus
  · intro c hc
    rcases hq c hc with h | h | h
    · exact Or.inl h
    · omega
    · exact Or.inr h
  · intro c hc
    obtain ⟨p, x, q, hr, hx⟩ := mem_cleaned_after kflag [] (cstr old) c hc
    refine ⟨p, x, q, hr, ?_⟩
    have hk1 : ¬ kflag > 1 := by omega
    simp only [List.nil_append, emitted_at, hk1, false_and, or_false, if_false] at hx
    by_cases hd : is_delim x
    · simp only [hd, if_true] at hx
      by_cases hoff : delim_count p % 5 = TS_OFF
      · simp only [hoff, if_true, List.mem_singleton] at hx
        exact Or.inl ⟨hx, hd, hoff⟩
      · simp [hoff] at hx
    · simp only [hd, if_false] at hx
      by_cases hf : delim_count p % 5 = TS_FUNC
      · simp only [hf, if_true, List.mem_singleton] at hx
        exact Or.inr ⟨hx, hd, hf⟩
      · simp [hf] at hx

/-- An instance of claim C15: a malformed input full of delimiters; with
`kflag = 1` the output `"d  "` has neither newline nor plus sign, and on
scenario A it is `"somefunc "`, not a character of the frame number, the
address, the `At` or the offset; with `kflag = 2` the output is `"d+ +e "`. -/
theorem kstack_cleanup_chars_witness :
    (∃ out, kstack_cleanup "a\nb+c d\n+\n\n++e \n".toList 1 = some out ∧
      out = "d  ".toList ∧ '\n' ∉ out ∧ '+' ∉ out) ∧
    cleaned_after 1 [] (cstr "0 0xffff At somefunc+0x10\n".toList) = "somefunc ".toList ∧
    kstack_cleanup "a\nb+c d\n+\n\n++e \n".toList 2 = some "d+ +e ".toList := by
  obtain ⟨out, ho, _, _, hn, hk⟩ := kstack_cleanup_chars "a\nb+c d\n+\n\n++e \n".toList 1
  have e : kstack_cleanup "a\nb+c d\n+\n\n++e \n".toList 1 = some "d  ".toList := by decide
  refine ⟨⟨out, ho, ?_, hn, (hk (by decide)).1⟩, by decide, by decide⟩
  rw [e] at ho
  exact (Option.some.inj ho).symm

/-! ## The two modes side by side -/

theorem marked_nul (rest : List Char) (ts : trace_state) (m : List (Char × Bool)) :
    kstack_cleanup_marked_loop ('\x00' :: rest) ts m = some m := by
  simp [kstack_cleanup_marked_loop]

theorem marked_plain {c : Char} (hd : ¬ is_delim c) (h0 : c ≠ '\x00')
    (rest : List Char) (ts : trace_state) (m : List (Char × Bool)) :
    kstack_cleanup_marked_loop (c :: rest) ts m =
      kstack_cleanup_marked_loop rest ts
        (if ts = TS_FUNC then m ++ [(c, false)]
          else if ts = TS_OFF then m ++ [(c, true)] else m) := by
  simp [kstack_cleanup_marked_loop, hd, h0]

theorem marked_delim {c : Char} (hd : is_delim c) (ts ts1 : trace_state)
    (hn : kstack_nextstate ts = some ts1) (rest : List Char) (m : List (Char × Bool)) :
    kstack_cleanup_marked_loop (c :: rest) ts m =
      kstack_cleanup_marked_loop rest ts1
        (if ts = TS_FUNC then (if ts = TS_OFF then m ++ [(' ', false)] else m) ++ [('+', true)]
          else (if ts = TS_OFF then m ++ [(' ', false)] else m)) := by
  simp [kstack_cleanup_marked_loop, hd, is_delim_ne_nul hd, hn]

theorem marked_errx {c : Char} (hd : is_delim c) (ts : trace_state)
    (hn : kstack_nextstate ts = none) (rest : List Char) (m : List (Char × Bool)) :
    kstack_cleanup_marked_loop (c :: rest) ts m = none := by
  simp [kstack_cleanup_marked_loop, hd, is_delim_ne_nul hd, hn]

theorem loop_errx (kflag : Int) {c : Char} (hd : is_delim c) (ts : trace_state)
    (hn : kstack_nextstate ts = none) (rest new : List Char) :
    kstack_cleanup_loop kflag (c :: rest) ts new = none := by
  simp [kstack_cleanup_loop, hd, is_delim_ne_nul hd, hn]

theorem marked_all_snoc (m : List (Char × Bool)) (c : Char) (b : Bool) :
    marked_all (m ++ [(c, b)]) = marked_all m ++ [c] := by
  simp [marked_all]

theorem marked_common_snoc_false (m : List (Char × Bool)) (c : Char) :
    marked_common (m ++ [(c, false)]) = marked_common m ++ [c] := by
  simp [marked_common]

theorem marked_common_snoc_true (m : List (Char × Bool)) (c : Char) :
    marked_common (m ++ [(c, true)]) = marked_common m := by
  simp [marked_common]

/-- With `kflag > 1` the loop writes the characters of the marked loop, marks
dropped. -/
theorem loop_marked_all (kflag : Int) (hk : kflag > 1) (s : List Char) (ts : trace_state)
    (m : List (Char × Bool)) :
    kstack_cleanup_loop kflag s ts (marked_all m) =
      (kstack_cleanup_marked_loop s ts m).map marked_all := by
  induction s generalizing ts m with
  | nil => rfl
  | cons c s ih =>
    by_cases h0 : c = '\x00'
    · subst h0
      rw [loop_nul, marked_nul]; rfl
    · by_cases hd : is_delim c
      · cases hn : kstack_nextstate ts with
        | none => rw [loop_errx kflag hd ts hn, marked_errx hd ts hn]; rfl
        | some ts1 =>
          rw [loop_delim kflag hd ts ts1 hn, marked_delim hd ts ts1 hn, ← ih]
          congr 1
          by_cases hf : ts = TS_FUNC <;> by_cases ho : ts = TS_OFF <;>
            simp [hk, hf, ho, marked_all_snoc]
      · rw [loop_plain kflag hd h0, marked_plain hd h0, ← ih]
        congr 1
        by_cases hf : ts = TS_FUNC <;> by_cases ho : ts = TS_OFF <;>
          simp [hk, hf, ho, marked_all_snoc]

/-- With `kflag ≤ 1` the loop writes the characters of the marked loop whose
mark is `false`. -/
theorem loop_marked_common (kflag : Int) (hk : ¬ kflag > 1) (s : List Char)
    (ts : trace_state) (m : List (Char × Bool)) :
    kstack_cleanup_loop kflag s ts (marked_common m) =
      (kstack_cleanup_marked_loop s ts m).map marked_common := by
  induction s generalizing ts m with
  | nil => rfl
  | cons c s ih =>
    by_cases h0 : c = '\x00'
    · subst h0
      rw [loop_nul, marked_nul]; rfl
    · by_cases hd : is_delim c
      · cases hn : kstack_nextstate ts with
        | none => rw [loop_errx kflag hd ts hn, marked_errx hd ts hn]; rfl
        | some ts1 =>
          rw [loop_delim kflag hd ts ts1 hn, marked_delim hd ts ts1 hn, ← ih]
          congr 1
          by_cases hf : ts = TS_FUNC <;> by_cases ho : ts = TS_OFF <;>
            simp [hk, hf, ho, marked_common_snoc_false, marked_common_snoc_true]
      · rw [loop_plain kflag hd h0, marked_plain hd h0, ← ih]
        congr 1
        by_cases hf : ts = TS_FUNC <;> by_cases ho : ts = TS_OFF <;>
          simp [hk, hf, ho, marked_common_snoc_false, marked_common_snoc_true]

/-- The marks of the marked loop: a character marked `true` is a plus sign or a
character of the input that is no delimiter; one marked `false` is a space or
such a character. -/
theorem marked_loop_marks (s : List Char) (ts : trace_state) (m out : List (Char × Bool))
    (hm : ∀ x ∈ m, (x.2 = true → x.1 = '+' ∨ ¬ is_delim x.1) ∧
      (x.2 = false → x.1 = ' ' ∨ ¬ is_delim x.1))
    (h : kstack_cleanup_marked_loop s ts m = some out) :
    ∀ x ∈ out, (x.2 = true → x.1 = '+' ∨ ¬ is_delim x.1) ∧
      (x.2 = false → x.1 = ' ' ∨ ¬ is_delim x.1) := by
  have snoc : ∀ (l : List (Char × Bool)) (y : Char × Bool),
      (∀ x ∈ l, (x.2 = true → x.1 = '+' ∨ ¬ is_delim x.1) ∧
        (x.2 = false → x.1 = ' ' ∨ ¬ is_delim x.1)) →
      ((y.2 = true → y.1 = '+' ∨ ¬ is_delim y.1) ∧
        (y.2 = false → y.1 = ' ' ∨ ¬ is_delim y.1)) →
      ∀ x ∈ l ++ [y], (x.2 = true → x.1 = '+' ∨ ¬ is_delim x.1) ∧
        (x.2 = false → x.1 = ' ' ∨ ¬ is_delim x.1) := by
    intro l y hl hy x hx
    rcases List.mem_append.mp hx with e | e
    · exact hl x e
    · rw [List.mem_singleton] at e
      rw [e]; exact hy
  induction s generalizing ts m with
  | nil =>
    simp only [kstack_cleanup_marked_loop] at h
    exact Option.some.inj h ▸ hm
  | cons c s ih =>
    by_cases h0 : c = '\x00'
    · subst h0
      rw [marked_nul] at h
      exact Option.some.inj h ▸ hm
    · by_cases hd : is_delim c
      · cases hn : kstack_nextstate ts with
        | none => rw [marked_errx hd ts hn] at h; exact Option.noConfusion h
        | some ts1 =>
          rw [marked_delim hd ts ts1 hn] at h
          have hsp := snoc m (' ', false) hm ⟨by simp, by simp⟩
          refine ih ts1 _ ?_ h
          split_ifs
          · exact snoc _ ('+', true) hsp ⟨by simp, by simp⟩
          · exact snoc _ ('+', true) hm ⟨by simp, by simp⟩
          · exact hsp
          · exact hm
      · rw [marked_plain hd h0] at h
        refine ih ts _ ?_ h
        split_ifs
        · exact snoc m (c, false) hm ⟨by simp, fun _ => Or.inr hd⟩
        · exact snoc m (c, true) hm ⟨fun _ => Or.inr hd, by simp⟩
        · exact hm

theorem marked_length (m : List (Char × Bool)) :
    (marked_all m).length = (marked_common m).length + m.countP (fun x => x.2) := by
  induction m with
  | nil => rfl
  | cons x m ih =>
    obtain ⟨c, b⟩ := x
    simp only [marked_all, marked_common, List.length_map] at ih ⊢
    cases b <;> simp [List.filter_cons, List.countP_cons] <;> omega

/-- Claim C19: for every input the two cleanings return, and the names-only
output is the detailed output with some characters deleted: exactly those the
detailed mode alone writes, which are the plus signs written when `TS_FUNC` is
left and the characters copied in state `TS_OFF` (the marks `true` of the
marked loop); the characters left, in their order, are the names-only
output. -/
theorem kstack_cleanup_names_sublist (s : List Char) :
    ∃ m, kstack_cleanup_marked s = some m ∧
      kstack_cleanup s 2 = some (marked_all m) ∧
      kstack_cleanup s 0 = some (marked_common m) ∧
      (marked_common m).Sublist (marked_all m) ∧
      (marked_all m).length = (marked_common m).length + m.countP (fun x => x.2) ∧
      (∀ x ∈ m, x.2 = true → x.1 = '+' ∨ ¬ is_delim x.1) := by
  have h2 := loop_marked_all 2 (by decide) s TS_FRAMENUM []
  have h0 := loop_marked_common 0 (by decide) s TS_FRAMENUM []
  obtain ⟨out, ho⟩ := kstack_cleanup_returns s 2
  cases hm : kstack_cleanup_marked_loop s TS_FRAMENUM [] with
  | none =>
    rw [hm] at h2
    have : kstack_cleanup s 2 = none := h2
    rw [this] at ho
    exact Option.noConfusion ho
  | some m =>
    rw [hm] at h2 h0
    refine ⟨m, hm, h2, h0, ?_, ?_, ?_⟩
    · exact (List.filter_sublist m).map Prod.fst
    · exact marked_length m
    · intro x hx hb
      exact (marked_loop_marks s TS_FRAMENUM [] m (by simp) hm x hx).1 hb

/-- An instance of claim C19: the malformed input `"a b c d+e f+g"`; the detailed
output `"d+e "` loses its plus sign and its offset character `e`, and
`"d "` is left. -/
theorem kstack_cleanup_names_sublist_witness :
    kstack_cleanup "a b c d+e f+g".toList 2 = some "d+e ".toList ∧
    kstack_cleanup "a b c d+e f+g".toList 0 = some "d ".toList ∧
    "d ".toList.Sublist "d+e ".toList := by
  obtain ⟨m, hm, h2, h0, hs, _⟩ := kstack_cleanup_names_sublist "a b c d+e f+g".toList
  have e : kstack_cleanup_marked "a b c d+e f+g".toList =
      some [('d', false), ('+', true), ('e', true), (' ', false)] := by decide
  rw [e] at hm
  rw [← Option.some.inj hm] at h2 h0 hs
  exact ⟨h2, h0, hs⟩

/-! ## The table -/

/-- One turn of the loop prints the row of the record and goes on: the cleaner
never ends the process. -/
theorem procstat_kstack_row_eq (K : Consts) (pid : Int) (ki_comm : List Char) (kflag : Int)
    (r : kinfo_kstack) :
    procstat_kstack_row K pid ki_comm kflag r = (row_text K pid ki_comm kflag r, true) := by
  have hc : ∀ t : String, (∀ c ∈ t.toList, c ≠ '\x00') →
      row_tail t.toList = pad_right 45 t.toList ++ ['\n'] := by
    intro t ht
    rw [row_tail, cstr_of_no_nul _ ht]
  have h1 := hc "<running>" (by decide)
  have h2 := hc "<swapped>" (by decide)
  have h3 := hc "<unknown>" (by decide)
  unfold procstat_kstack_row row_text trace_field row_head
  by_cases ha : r.kkst_state = K.KKST_STATE_RUNNING
  · simp only [if_pos ha, h1, List.append_assoc]
  · by_cases hb : r.kkst_state = K.KKST_STATE_SWAPPED
    · simp only [if_neg ha, if_pos hb, h2, List.append_assoc]
    · by_cases hk : r.kkst_state = K.KKST_STATE_STACKOK
      · obtain ⟨trace, ht⟩ := kstack_cleanup_returns r.kkst_trace kflag
        simp only [if_neg ha, if_neg hb, if_pos hk, ht, row_tail,
          cstr_kstack_cleanup _ _ _ ht, Option.getD_some, List.append_assoc]
      · simp only [if_neg ha, if_neg hb, if_neg hk, h3, List.append_assoc]

theorem procstat_kstack_rows_eq (K : Consts) (pid : Int) (ki_comm : List Char) (kflag : Int)
    (l : List kinfo_kstack) :
    procstat_kstack_rows K pid ki_comm kflag l = (rows_text K pid ki_comm kflag l, true) := by
  induction l with
  | nil => rfl
  | cons r rest ih =>
    simp only [procstat_kstack_rows, procstat_kstack_row_eq, ih, rows_text]

/-- What `procstat_kstack` does when both queries succeed (and `malloc` between
them): the header or nothing, then the rows of the sorted records. -/
theorem procstat_kstack_ok (K : Consts) (hflag : Int) (os : Kernel) (pid : Int)
    (ki_comm : List Char) (kflag : Int) (hsize : ¬ os.size_error < 0)
    (hmalloc : os.malloc_ok = true) (hfetch : ¬ os.fetch_error < 0) :
    procstat_kstack K hflag os pid ki_comm kflag =
      ⟨no_row_output hflag ++ rows_text K pid ki_comm kflag (kinfo_kstack_sort os.kkstp),
        [], none⟩ := by
  have hnot : ¬ (os.size_error < 0 ∧ os.size_errno ≠ K.ESRCH ∧ os.size_errno ≠ K.EPERM ∧
      os.size_errno ≠ K.ENOENT) := fun h => hsize h.1
  have hnot2 : ¬ (os.size_error < 0 ∧ os.size_errno = K.ENOENT) := fun h => hsize h.1
  have hm : ¬ (os.malloc_ok = false) := by simp [hmalloc]
  simp only [procstat_kstack, if_neg hnot, if_neg hnot2, if_neg hsize, if_neg hm,
    if_neg hfetch, procstat_kstack_rows_eq, no_row_output]

theorem pad_left_length (w : Nat) (s : List Char) :
    (pad_left w s).length = max w s.length := by
  simp only [pad_left, List.length_append, List.length_replicate]
  omega

theorem pad_right_length (w : Nat) (s : List Char) :
    (pad_right w s).length = max w s.length := by
  simp only [pad_right, List.length_append, List.length_replicate]
  omega

/-- Claim C12: when both queries succeed (the buffer allocated between them)
and return `n` records, `procstat_kstack` prints, after the header if any, the
rows of the `n` records in the order the sort leaves them in (non-decreasing
thread ids, for thread ids from 0 to 2^31 - 1), and nothing else; the row of a
record is its pid right-justified to width 5, a space, its
thread id right-justified to width 6, a space, the command name left-justified
to width 20, a space, its trace field left-justified to width 45, a newline.
A field is padded with spaces to its width and never cut. -/
theorem procstat_kstack_table (K : Consts) (hflag : Int) (os : Kernel) (pid : Int)
    (ki_comm : List Char) (kflag : Int) (hsize : ¬ os.size_error < 0)
    (hmalloc : os.malloc_ok = true) (hfetch : ¬ os.fetch_error < 0) :
    (procstat_kstack K hflag os pid ki_comm kflag).stdout =
      no_row_output hflag ++ rows_text K pid ki_comm kflag (kinfo_kstack_sort os.kkstp) ∧
    (procstat_kstack K hflag os pid ki_comm kflag).stderr = [] ∧
    (procstat_kstack K hflag os pid ki_comm kflag).exit = none ∧
    (kinfo_kstack_sort os.kkstp).length = os.kkstp.length ∧
    (kinfo_kstack_sort os.kkstp).Perm os.kkstp ∧
    ((∀ r ∈ os.kkstp, 0 ≤ r.kkst_tid ∧ r.kkst_tid ≤ 2147483647) →
      (kinfo_kstack_sort os.kkstp).Pairwise (fun a b => a.kkst_tid ≤ b.kkst_tid)) ∧
    (∀ r, row_text K pid ki_comm kflag r =
      pad_left 5 (fmt_d pid) ++ [' '] ++ pad_left 6 (fmt_d r.kkst_tid) ++ [' '] ++
        pad_right 20 (cstr ki_comm) ++ [' '] ++ pad_right 45 (trace_field K kflag r) ++
        ['\n']) ∧
    (∀ w s, (pad_left w s).length = max w s.length ∧ s <:+ pad_left w s ∧
      (pad_right w s).length = max w s.length ∧ s <+: pad_right w s) := by
  rw [procstat_kstack_ok K hflag os pid ki_comm kflag hsize hmalloc hfetch]
  refine ⟨rfl, rfl, rfl, (kinfo_kstack_sort_perm os.kkstp).length_eq,
    kinfo_kstack_sort_perm os.kkstp, kinfo_kstack_sort_sorted os.kkstp, fun r => rfl,
    fun w s => ⟨pad_left_length w s, ?_,
      pad_right_length w s, ?_⟩⟩
  · exact List.suffix_append _ _
  · exact List.prefix_append _ _

set_option maxRecDepth 8000 in
/-- Scenario E of claim C12, with the header: threads 42 (a cleaned trace) and 7
(running) of pid 1, `init`, are printed as the row of 7, then the row of
42. -/
theorem procstat_kstack_table_witness :
    (procstat_kstack freebsd 0
      (fetch_ok [⟨42, 0, "0 0xffff At somefunc+0x10\n".toList⟩, ⟨7, 2, []⟩])
      1 "init".toList 0).stdout =
    ("  PID    TID COMM                 KSTACK                                       \n" ++
     "    1      7 init                 <running>                                    \n" ++
     "    1     42 init                 somefunc                                     \n").toList :=
  ((procstat_kstack_table freebsd 0
      (fetch_ok [⟨42, 0, "0 0xffff At somefunc+0x10\n".toList⟩, ⟨7, 2, []⟩])
      1 "init".toList 0 (by decide) rfl (by decide)).1).trans (by decide)

/-- Claim C13: the header line, the strings PID, TID, COMM, KSTACK in fields of
widths 5, 6 (right-justified), 20 and 45 (left-justified), is what
`procstat_kstack` writes first when `hflag` is not set, and all it writes after
it is rows of records (none, or those of the sorted records); when `hflag` is
set it writes those rows only. -/
theorem procstat_kstack_header (K : Consts) (os : Kernel) (pid : Int)
    (ki_comm : List Char) (kflag : Int) :
    header =
      "  PID    TID COMM                 KSTACK                                       \n".toList ∧
    ∃ rows, (rows = [] ∨
        rows = rows_text K pid ki_comm kflag (kinfo_kstack_sort os.kkstp)) ∧
      ∀ hflag : Int,
        (hflag = 0 → (procstat_kstack K hflag os pid ki_comm kflag).stdout = header ++ rows) ∧
        (hflag ≠ 0 → (procstat_kstack K hflag os pid ki_comm kflag).stdout = rows) := by
  refine ⟨by decide, ?_⟩
  have hout : ∀ rows : List Char,
      (∀ hflag, (procstat_kstack K hflag os pid ki_comm kflag).stdout =
        no_row_output hflag ++ rows) →
      ∀ hflag : Int,
        (hflag = 0 → (procstat_kstack K hflag os pid ki_comm kflag).stdout = header ++ rows) ∧
        (hflag ≠ 0 → (procstat_kstack K hflag os pid ki_comm kflag).stdout = rows) := by
    intro rows h hflag
    constructor
    · intro h0; rw [h, no_row_output, if_pos h0]
    · intro h0; rw [h, no_row_output, if_neg h0]; rfl
  by_cases hsize : os.size_error < 0
  · refine ⟨[], Or.inl rfl, hout [] (fun hflag => ?_)⟩
    by_cases hw : os.size_error < 0 ∧ os.size_errno ≠ K.ESRCH ∧ os.size_errno ≠ K.EPERM ∧
        os.size_errno ≠ K.ENOENT
    · simp only [procstat_kstack, if_pos hw, no_row_output, List.append_nil]
    · by_cases he : os.size_error < 0 ∧ os.size_errno = K.ENOENT
      · simp only [procstat_kstack, if_neg hw, if_pos he, no_row_output, List.append_nil]
      · simp only [procstat_kstack, if_neg hw, if_neg he, if_pos hsize, no_row_output,
          List.append_nil]
  · have hnot : ¬ (os.size_error < 0 ∧ os.size_errno ≠ K.ESRCH ∧
        os.size_errno ≠ K.EPERM ∧ os.size_errno ≠ K.ENOENT) := fun h => hsize h.1
    have hnot2 : ¬ (os.size_error < 0 ∧ os.size_errno = K.ENOENT) := fun h => hsize h.1
    by_cases hm : os.malloc_ok = true
    · have hm2 : ¬ (os.malloc_ok = false) := by simp [hm]
      by_cases hfetch : os.fetch_error < 0
      · refine ⟨[], Or.inl rfl, hout [] (fun hflag => ?_)⟩
        simp only [procstat_kstack, if_neg hnot, if_neg hnot2, if_neg hsize, if_neg hm2,
          if_pos hfetch, no_row_output, List.append_nil]
      · refine ⟨_, Or.inr rfl, hout _ (fun hflag => ?_)⟩
        rw [procstat_kstack_ok K hflag os pid ki_comm kflag hsize hm hfetch]
    · refine ⟨[], Or.inl rfl, hout [] (fun hflag => ?_)⟩
      have hm2 : os.malloc_ok = false := by simpa using hm
      simp only [procstat_kstack, if_neg hnot, if_neg hnot2, if_neg hsize, if_pos hm2,
        no_row_output, List.append_nil]

/-- An instance of claim C13, scenario E: what is written with `hflag = 0` is the
header followed by what is written with `hflag = 1`. -/
theorem procstat_kstack_header_witness :
    (procstat_kstack freebsd 0 (fetch_ok [⟨42, 0, []⟩, ⟨7, 2, []⟩]) 1 "init".toList 0).stdout =
      "  PID    TID COMM                 KSTACK                                       \n".toList ++
      (procstat_kstack freebsd 1 (fetch_ok [⟨42, 0, []⟩, ⟨7, 2, []⟩]) 1 "init".toList 0).stdout := by
  obtain ⟨hh, rows, _, h⟩ := procstat_kstack_header freebsd
    (fetch_ok [⟨42, 0, []⟩, ⟨7, 2, []⟩]) 1 "init".toList 0
  rw [(h 0).1 rfl, (h 1).2 (by decide), hh]

end Kstack
